import Mathlib

/-!
Verification of the productivity-scripts calendar pipeline.

This file gives a shallow embedding of the core logic of the repository:
the month-window date arithmetic and streaming daily aggregation of
`wallaby/cli/list_events.py` (and the legacy `list-calendar-events.py`),
the sanitization, attendance classification, collision-safe file
organization of `wallaby/cli/download_notes.py`, and the paginated fetch
loop of `wallaby/calendar_client.py`.  Timestamps parsed by `dateutil`
are modelled as an abstract `Instant` carrying the absolute time in
seconds together with its `%Y-%m-%d` rendering; file-system and CSV side
effects are modelled as explicit state (a list of existing paths,
returned rows).  Python exceptions (`TypeError` from `parser.parse(None)`,
`ZeroDivisionError`) are modelled with `Except`.
-/

namespace Wallaby

/-! ## Data model -/

/-- A parsed timestamp: the absolute instant in seconds together with the
`%Y-%m-%d` rendering used by `strftime` in the source. -/
structure Instant where
  date : String
  seconds : Int
deriving DecidableEq, Repr

/-- The `start`/`end` field of a Google Calendar event: either a full
`dateTime` or a bare all-day `date`. -/
structure EventTime where
  dateTime : Option Instant
  date : Option String
deriving DecidableEq, Repr

/-- An attendee record; every field may be absent from the JSON object. -/
structure Attendee where
  email : Option String
  displayName : Option String
  responseStatus : Option String
deriving DecidableEq, Repr

/-- An event as consumed by the statistics pipeline
(`wallaby/cli/list_events.py`), which accesses `event["start"]` and
`event["end"]` directly. -/
structure Event where
  summary : String
  attendees : List Attendee
  start : EventTime
  stop : EventTime
deriving DecidableEq, Repr

/-- An event as consumed by the archive pipeline
(`wallaby/cli/download_notes.py`), where the `start` key itself may be
absent. -/
structure ArchEvent where
  summary : Option String
  attendees : List Attendee
  start : Option EventTime
deriving DecidableEq, Repr

/-! ## download_notes.py: sanitize_filename -/

/-- The characters replaced by the first substitution in
`sanitize_filename` (`re.sub(r'[<>:"/\\|?*]', '_', filename)`). -/
def invalidChars : List Char := ['<', '>', ':', '"', '/', '\\', '|', '?', '*']

/-- The characters replaced by the second substitution
(`re.sub(r'[\r\n\t]', '_', sanitized)`). -/
def ctrlChars : List Char := ['\r', '\n', '\t']

/-- Model of Python's `str.rstrip(chars)` on a character list. -/
def rstripChars (l : List Char) (strip : List Char) : List Char :=
  (l.reverse.dropWhile (fun c => strip.contains c)).reverse

/-- Embedding of `sanitize_filename` from `wallaby/cli/download_notes.py`:
replace invalid filesystem characters with underscores, replace CR/LF/TAB
with underscores, truncate to 200 characters, then strip trailing dots and
spaces. -/
def sanitize_filename (filename : String) : String :=
  let s1 := filename.data.map (fun c => if invalidChars.contains c then '_' else c)
  let s2 := s1.map (fun c => if ctrlChars.contains c then '_' else c)
  let s3 := if s2.length > 200 then s2.take 200 else s2
  ⟨rstripChars s3 ['.', ' ']⟩

/-- The combined per-character substitution performed by the two `re.sub`
calls, used to state the replacement property of `sanitize_filename`. -/
def sanitizeChar (c : Char) : Char :=
  if invalidChars.contains c then '_' else if ctrlChars.contains c then '_' else c

/-! ## download_notes.py: get_attendance_status -/

/-- One step of the attendee scan: does this attendee's email match the
user's, case-insensitively (`attendee.get('email', '').lower() ==
user_email.lower()`)? -/
def emailMatches (user_email : String) (a : Attendee) : Bool :=
  (a.email.getD "").toLower == user_email.toLower

/-- The response-status mapping applied to the first matching attendee
(`responseStatus` defaulting to `needsAction`). -/
def statusOutcome (a : Attendee) : String :=
  let rs := a.responseStatus.getD "needsAction"
  if rs == "accepted" then "attended"
  else if rs == "declined" then "rejected"
  else "unacknowledged"

/-- The attendee-list scan of `get_attendance_status`: the `for` loop with
early `return` over `event.get('attendees', [])`. -/
def attendanceScan (user_email : String) : List Attendee → String
  | [] => "unacknowledged"
  | a :: rest =>
    if emailMatches user_email a then statusOutcome a
    else attendanceScan user_email rest

/-- Embedding of `get_attendance_status` from
`wallaby/cli/download_notes.py`. -/
def get_attendance_status (event : ArchEvent) (user_email : String) : String :=
  attendanceScan user_email event.attendees

/-- Restatement of the specification's classification rule (section 4.3
of the spec): first attendee whose email matches case-insensitively wins;
accepted maps to attended, declined to rejected, anything else or an
absent response status to unacknowledged; no match means unacknowledged. -/
def get_attendance_status_spec (event : ArchEvent) (user_email : String) : String :=
  match event.attendees.find? (emailMatches user_email) with
  | none => "unacknowledged"
  | some a =>
    if a.responseStatus = some "accepted" then "attended"
    else if a.responseStatus = some "declined" then "rejected"
    else "unacknowledged"

/-! ## list_events.py: get_date_range (month window) -/

/-- A wall-clock datetime as handled by `datetime.replace` in
`get_date_range`; microseconds are irrelevant to the claims. -/
structure DateTime6 where
  year : Int
  month : Nat
  day : Nat
  hour : Nat
  minute : Nat
  second : Nat
deriving DecidableEq, Repr

/-- Gregorian leap-year test, modelling the `calendar` module. -/
def isLeapYear (y : Int) : Bool :=
  (y % 4 == 0 && y % 100 != 0) || y % 400 == 0

/-- Number of days in a month: model of `calendar.monthrange(y, m)[1]`. -/
def monthrange (y : Int) (m : Nat) : Nat :=
  if m = 2 then (if isLeapYear y then 29 else 28)
  else if m = 4 ∨ m = 6 ∨ m = 9 ∨ m = 11 then 30
  else 31

/-- Embedding of `get_date_range` from `wallaby/cli/list_events.py`: the
month-window calculator.  `start` is day 1 at 00:00:00 of the month
obtained by subtracting `months - 1` from the current month with the
source's wrap rule (`startmonth = 12 - (monthoffset - 1)`, `startyear -= 1`
when `startmonth <= monthoffset`); `end` is the last day of the current
month at 23:59:59.  The month arithmetic is Python integer arithmetic, so
for `months ≥ 14` the wrap rule produces `startmonth ≤ 0` and
`now.replace(month=startmonth, ...)` raises `ValueError: month must be in
1..12`; that error is modelled with `Except`, guarding the same 1..12
range `datetime.replace` validates. -/
def get_date_range (now : DateTime6) (months : Nat) :
    Except String (DateTime6 × DateTime6) :=
  let dayrange := monthrange now.year now.month
  let monthoffset : Int := (months : Int) - 1
  let sy_sm : Int × Int :=
    if monthoffset > 0 then
      if (now.month : Int) ≤ monthoffset then (now.year - 1, 12 - (monthoffset - 1))
      else (now.year, (now.month : Int) - monthoffset)
    else (now.year, (now.month : Int))
  if 1 ≤ sy_sm.2 ∧ sy_sm.2 ≤ 12 then
    Except.ok (⟨sy_sm.1, sy_sm.2.toNat, 1, 0, 0, 0⟩,
      ⟨now.year, now.month, dayrange, 23, 59, 59⟩)
  else Except.error "ValueError: month must be in 1..12"

/-! ## calendar_client.py: get_events (paginated fetch) -/

/-- One response from the events-listing collaborator: a page of items and
an optional continuation cursor. -/
structure PageResponse (α : Type) where
  items : List α
  nextPageToken : Option String
deriving DecidableEq, Repr

/-- Embedding of the pagination loop in `CalendarClient.get_events`: the
server's successive responses are given as a list, consumed strictly
serially; `tok` is the `pageToken` sent with the current request.  The
result is the accumulated item list together with the trace of request
tokens actually issued (the loop starts with `page_token = None` and stops
as soon as a response carries no `nextPageToken`). -/
def get_events {α : Type} : List (PageResponse α) → Option String → List α × List (Option String)
  | [], tok => ([], [tok])
  | p :: rest, tok =>
    match p.nextPageToken with
    | none => (p.items, [tok])
    | some t =>
      let r := get_events rest (some t)
      (p.items ++ r.1, tok :: r.2)

/-! ## download_notes.py: collision-safe path resolution -/

/-- Model of Python's `s.rsplit('.', 1)` when `'.' in s`: the part before
the last dot and the part after it (`none` when the string has no dot). -/
def rsplitDot (s : String) : Option (String × String) :=
  let rev := s.data.reverse
  if '.' ∈ rev then
    some (⟨((rev.dropWhile (fun c => c ≠ '.')).tail).reverse⟩,
          ⟨(rev.takeWhile (fun c => c ≠ '.')).reverse⟩)
  else none

/-- The n-th filename tried by the duplicate-handling loop in
`save_events_as_native`: candidate 0 is the base filename; candidate n+1
inserts `_<n+1>` before the final extension (or appends it when the
filename has no dot). -/
def eventCandidate (filename : String) (n : Nat) : String :=
  match n with
  | 0 => filename
  | Nat.succ m =>
    match rsplitDot filename with
    | some (stem, ext) => stem ++ "_" ++ Nat.repr (m + 1) ++ "." ++ ext
    | none => filename ++ "_" ++ Nat.repr (m + 1)

/-- The n-th filename tried by the duplicate-handling loop in
`download_gemini_notes`: candidate 0 is `safe_title + ".txt"`; candidate
n+1 is `safe_title`'s part before its last dot (or all of `safe_title`
when it has no dot) followed by `_<n+1>.txt`. -/
def noteCandidate (safe_title : String) (n : Nat) : String :=
  match n with
  | 0 => safe_title ++ ".txt"
  | Nat.succ m =>
    match rsplitDot safe_title with
    | some (stem, _) => stem ++ "_" ++ Nat.repr (m + 1) ++ ".txt"
    | none => safe_title ++ "_" ++ Nat.repr (m + 1) ++ ".txt"

/-- The `while file_path.exists()` loop: try candidates in order starting
at index `n`, returning the first whose full path is not among the
existing paths `fs`.  The loop in the source terminates because candidate
names are pairwise distinct and the file system is finite; here the same
argument is made explicit by fuel, which the callers set large enough that
it is never exhausted (see `resolveGo_not_mem`). -/
def resolveGo (fs : List String) (dir : String) (cand : Nat → String) : Nat → Nat → String
  | 0, n => dir ++ cand n
  | Nat.succ fuel, n =>
    if dir ++ cand n ∈ fs then resolveGo fs dir cand fuel (n + 1)
    else dir ++ cand n

/-- Collision resolution for an event file in `save_events_as_native`. -/
def resolveEventPath (fs : List String) (dir filename : String) : String :=
  resolveGo fs dir (eventCandidate filename) (fs.length + 1) 0

/-- Collision resolution for a Gemini-note file in
`download_gemini_notes`. -/
def resolveNotePath (fs : List String) (dir safe_title : String) : String :=
  resolveGo fs dir (noteCandidate safe_title) (fs.length + 1) 0

/-- The disambiguation rule the specification prescribes for notes: the
"same `_<n>` rule" as for event files, applied to the full note filename
`safe_title + ".txt"` (insert `_<n>` before the final extension). -/
def resolveNotePathSpec (fs : List String) (dir safe_title : String) : String :=
  resolveGo fs dir (eventCandidate (safe_title ++ ".txt")) (fs.length + 1) 0

/-! ## download_notes.py: save_events_as_native -/

/-- Date of an archive-pipeline event: `dateTime` is preferred, then the
bare `date`; `none` when the event has no usable start
(`'start' not in event`, or neither representation present). -/
def eventDate (e : ArchEvent) : Option String :=
  match e.start with
  | none => none
  | some t =>
    match t.dateTime with
    | some i => some i.date
    | none => t.date

/-- State threaded through `save_events_as_native`: the set of existing
file paths (relative to the output root) and the per-outcome counters of
the `stats` dictionary. -/
structure ArchState where
  fs : List String
  attended : Nat
  rejected : Nat
  unacknowledged : Nat
deriving DecidableEq, Repr

/-- The `stats[attendance_status] += 1` update.  The final branch is
unreachable because `get_attendance_status` always returns one of the
three keys. -/
def bump (st : ArchState) (status : String) : ArchState :=
  if status = "attended" then { st with attended := st.attended + 1 }
  else if status = "rejected" then { st with rejected := st.rejected + 1 }
  else if status = "unacknowledged" then { st with unacknowledged := st.unacknowledged + 1 }
  else st

/-- Processing of one event by the loop in `save_events_as_native` (run
without a Drive client, so no note download): skip events without a usable
start; otherwise classify, count, build
`<outcome>/<date>/<sanitized title><ext>`, resolve collisions and write
the file.  Events are dictionaries, so `get_file_extension` always picks
`.yaml`. -/
def saveEventStep (user_email : String) (st : ArchState) (e : ArchEvent) : ArchState :=
  match eventDate e with
  | none => st
  | some date_str =>
    let status := get_attendance_status e user_email
    let st1 := bump st status
    let dir := status ++ "/" ++ date_str ++ "/"
    let filename := sanitize_filename (e.summary.getD "Untitled Event") ++ ".yaml"
    let path := resolveEventPath st1.fs dir filename
    { st1 with fs := st1.fs ++ [path] }

/-- Embedding of `save_events_as_native` (drive_client = None): fold the
per-event step over the fetched events, starting from an existing file
system `fs0` and zeroed counters. -/
def save_events_as_native (user_email : String) (events : List ArchEvent)
    (fs0 : List String) : ArchState :=
  events.foldl (saveEventStep user_email) ⟨fs0, 0, 0, 0⟩

/-! ## list_events.py: export_events_to_csv / export_stats_to_csv -/

/-- The display names of accepted attendees
(`a.get('displayName', a['email']) for a in attendees if
a.get('responseStatus') == 'accepted'`). -/
def acceptedAttendees (e : Event) : List String :=
  e.attendees.filterMap fun a =>
    if a.responseStatus = some "accepted" then some (a.displayName.getD (a.email.getD ""))
    else none

/-- The qualification test of the statistics pipeline: more than one
attendee, and the user's display identity among the accepted attendees. -/
def qualifies (user_email : String) (e : Event) : Bool :=
  decide (e.attendees.length > 1) && (acceptedAttendees e).contains user_email

/-- Start date string of a statistics-pipeline event
(`parser.parse(event["start"].get("dateTime")).strftime('%Y-%m-%d')`);
the default never fires on events that reach it. -/
def dateStrOf (e : Event) : String :=
  (e.start.dateTime.getD ⟨"", 0⟩).date

/-- Start instant in seconds of a statistics-pipeline event. -/
def startSeconds (e : Event) : Int :=
  (e.start.dateTime.getD ⟨"", 0⟩).seconds

/-- Duration in seconds (`end - start`) of a statistics-pipeline event. -/
def durationOf (e : Event) : Int :=
  (e.stop.dateTime.getD ⟨"", 0⟩).seconds - (e.start.dateTime.getD ⟨"", 0⟩).seconds

/-- The error raised by `parser.parse(None)` when a qualifying event lacks
a `dateTime`. -/
def parseNoneMessage : String := "TypeError: parser.parse(None)"

/-- Accumulator state of the streaming aggregation in
`export_events_to_csv`: total event count, the open day key, its
cumulative duration (seconds) and meeting count, and the sealed `stats`
dictionary (insertion-ordered, as a Python dict). -/
structure AggState where
  count : Nat
  current : Option String
  cumulative : Int
  cnt : Nat
  stats : List (String × Int × Nat)
deriving DecidableEq, Repr

/-- Python dict assignment `stats[k] = v`: replace in place when the key
is present, append otherwise. -/
def dictInsert (l : List (String × Int × Nat)) (k : String) (v : Int × Nat) :
    List (String × Int × Nat) :=
  if k ∈ l.map Prod.fst then
    l.map (fun p => if p.1 = k then (k, v) else p)
  else l ++ [(k, v)]

/-- Processing of one event by the loop in `export_events_to_csv`: skip
non-qualifying events; for a qualifying event parse both `dateTime`s
(raising `TypeError` when absent), then either accumulate into the open
day, or seal the open day into `stats` and open a new one. -/
def processEvent (user_email : String) (st : AggState) (e : Event) :
    Except String AggState :=
  if qualifies user_email e then
    match e.start.dateTime, e.stop.dateTime with
    | some s, some en =>
      let duration := en.seconds - s.seconds
      let datestr := s.date
      match st.current with
      | none =>
        Except.ok ⟨st.count + 1, some datestr, duration, st.cnt + 1, st.stats⟩
      | some cur =>
        if cur = datestr then
          Except.ok ⟨st.count + 1, some cur, st.cumulative + duration, st.cnt + 1, st.stats⟩
        else
          Except.ok ⟨st.count + 1, some datestr, duration, 0 + 1,
            dictInsert st.stats cur (st.cumulative, st.cnt)⟩
    | _, _ => Except.error parseNoneMessage
  else Except.ok st

/-- The event loop of `export_events_to_csv`. -/
def exportEventsGo (user_email : String) : List Event → AggState → Except String AggState
  | [], st => Except.ok st
  | e :: rest, st =>
    match processEvent user_email st e with
    | Except.ok st1 => exportEventsGo user_email rest st1
    | Except.error msg => Except.error msg

/-- Sealing of the still-open accumulator after the stream ends
("Don't forget the last day's stats"). -/
def finalizeStats (st : AggState) : List (String × Int × Nat) :=
  match st.current with
  | none => st.stats
  | some cur => dictInsert st.stats cur (st.cumulative, st.cnt)

/-- Embedding of `export_events_to_csv`: returns the total qualifying
count and the sealed daily statistics, or the propagated parse error. -/
def export_events (user_email : String) (events : List Event) :
    Except String (Nat × List (String × Int × Nat)) :=
  match exportEventsGo user_email events ⟨0, none, 0, 0, []⟩ with
  | Except.ok st => Except.ok (st.count, finalizeStats st)
  | Except.error msg => Except.error msg

/-- Embedding of `export_stats_to_csv` from `wallaby/cli/list_events.py`:
the Averages row it emits, or `none` when `len(stats) == 0`.  The average
duration is `int(total_time.total_seconds() / len(stats))` — exact
division truncated toward zero, i.e. `Int.tdiv`; the average count is true
division. -/
def export_stats (stats : List (String × Int × Nat)) : Option (Int × ℚ) :=
  let total_time : Int := (stats.map (fun p => p.2.1)).sum
  let total_count : Nat := (stats.map (fun p => p.2.2)).sum
  if stats.length > 0 then
    some (Int.tdiv total_time (stats.length : Int), (total_count : ℚ) / (stats.length : ℚ))
  else none

/-- The stats-export epilogue of the legacy `list-calendar-events.py`:
identical totals, but the Averages row is written unconditionally, so
`len(stats) == 0` raises `ZeroDivisionError`. -/
def legacyExportStats (stats : List (String × Int × Nat)) : Except String (Int × ℚ) :=
  let total_time : Int := (stats.map (fun p => p.2.1)).sum
  let total_count : Nat := (stats.map (fun p => p.2.2)).sum
  if stats.length > 0 then
    Except.ok (Int.tdiv total_time (stats.length : Int), (total_count : ℚ) / (stats.length : ℚ))
  else Except.error "ZeroDivisionError: division by zero"

/-- The aggregation of the legacy `list-calendar-events.py`: the
per-event loop is the same as in `export_events_to_csv`, but the script
has no `stats[current] = ...` assignment after the loop, so the
still-open accumulator is never sealed — the final day of every run is
missing from its `stats`. -/
def legacy_export_events (user_email : String) (events : List Event) :
    Except String (Nat × List (String × Int × Nat)) :=
  match exportEventsGo user_email events ⟨0, none, 0, 0, []⟩ with
  | Except.ok st => Except.ok (st.count, st.stats)
  | Except.error msg => Except.error msg

/-- The post-fetch part of `main` in the legacy `list-calendar-events.py`:
return early when no events were fetched, otherwise run the legacy
aggregation (which never seals the final open day) and write the stats
file with its unguarded Averages row. -/
def legacyMain (user_email : String) (events : List Event) :
    Except String (Option (Nat × List (String × Int × Nat) × (Int × ℚ))) :=
  if events.isEmpty then Except.ok none
  else
    match legacy_export_events user_email events with
    | Except.error msg => Except.error msg
    | Except.ok (count, stats) =>
      match legacyExportStats stats with
      | Except.error msg => Except.error msg
      | Except.ok avg => Except.ok (some (count, stats, avg))

/-- Keys of the sealed stats dictionary. -/
def statKeys (stats : List (String × Int × Nat)) : List String :=
  stats.map Prod.fst

/-- Sum of the per-day meeting counts of the stats dictionary. -/
def sumCounts (stats : List (String × Int × Nat)) : Nat :=
  (stats.map (fun p => p.2.2)).sum

/-- Sum of the per-day cumulative durations of the stats dictionary. -/
def sumDurs (stats : List (String × Int × Nat)) : Int :=
  (stats.map (fun p => p.2.1)).sum

/-- Two accepted attendees shared by the concrete scenarios below. -/
def demoAttendees : List Attendee :=
  [⟨some "me@example.com", some "Me", some "accepted"⟩,
   ⟨some "other@example.com", some "Other", some "accepted"⟩]

/-- The end-to-end scenario of the specification: 30- and 45-minute
meetings on one day and a 15-minute meeting the next day. -/
def demoEvents : List Event :=
  [⟨"Sync", demoAttendees,
      ⟨some ⟨"2024-01-01", 0⟩, none⟩, ⟨some ⟨"2024-01-01", 1800⟩, none⟩⟩,
   ⟨"Review", demoAttendees,
      ⟨some ⟨"2024-01-01", 3600⟩, none⟩, ⟨some ⟨"2024-01-01", 6300⟩, none⟩⟩,
   ⟨"Planning", demoAttendees,
      ⟨some ⟨"2024-01-02", 90000⟩, none⟩, ⟨some ⟨"2024-01-02", 90900⟩, none⟩⟩]

/-- An out-of-order scenario: the third event returns to the first
event's date after that day has been sealed. -/
def outOfOrderEvents : List Event :=
  [⟨"m1", demoAttendees,
      ⟨some ⟨"2024-01-01", 0⟩, none⟩, ⟨some ⟨"2024-01-01", 10⟩, none⟩⟩,
   ⟨"m2", demoAttendees,
      ⟨some ⟨"2024-01-02", 100⟩, none⟩, ⟨some ⟨"2024-01-02", 120⟩, none⟩⟩,
   ⟨"m3", demoAttendees,
      ⟨some ⟨"2024-01-01", 30⟩, none⟩, ⟨some ⟨"2024-01-01", 60⟩, none⟩⟩]

/-- A qualifying all-day event: both start and end carry a bare date and
no dateTime. -/
def allDayEvent : Event :=
  ⟨"Offsite", demoAttendees, ⟨none, some "2024-01-01"⟩, ⟨none, some "2024-01-01"⟩⟩

/-- An event with no attendees: fetched, but not qualifying, so a run
containing only this event aggregates zero distinct days. -/
def soloEvent : Event :=
  ⟨"Focus time", [], ⟨some ⟨"2024-01-01", 0⟩, none⟩, ⟨some ⟨"2024-01-01", 3600⟩, none⟩⟩

end Wallaby

namespace Wallaby

/-! ## Properties of sanitize_filename (claim C4) -/

theorem rstripChars_eq_rdropWhile (l strip : List Char) :
    rstripChars l strip = List.rdropWhile (fun c => strip.contains c) l := rfl

theorem sanitize_data (s : String) :
    (sanitize_filename s).data =
      List.rdropWhile (fun c => ['.', ' '].contains c)
        ((s.data.map sanitizeChar).take 200) := by
  have hcomp : ∀ c : Char,
      (if ctrlChars.contains (if invalidChars.contains c then '_' else c) then '_'
        else if invalidChars.contains c then '_' else c) = sanitizeChar c := by
    intro c
    unfold sanitizeChar
    by_cases h1 : invalidChars.contains c
    · simp only [h1, if_true]
      norm_num
    · simp only [h1]
      norm_num
  show rstripChars _ _ = _
  rw [rstripChars_eq_rdropWhile]
  congr 1
  rw [List.map_map]
  have hmap : s.data.map
      ((fun c => if ctrlChars.contains c then '_' else c) ∘
        fun c => if invalidChars.contains c then '_' else c) = s.data.map sanitizeChar :=
    List.map_congr_left fun c _ => hcomp c
  by_cases hlen : (s.data.map sanitizeChar).length > 200
  · rw [if_pos]
    · rw [hmap]
    · simpa [hmap] using hlen
  · rw [if_neg]
    · rw [hmap, List.take_of_length_le (by omega)]
    · simpa [hmap] using hlen

theorem sanitize_pref_of_take (s : String) :
    (sanitize_filename s).data <+: (s.data.map sanitizeChar).take 200 := by
  rw [sanitize_data]
  exact List.rdropWhile_prefix _ _

theorem sanitize_length_le_200 (s : String) : (sanitize_filename s).length ≤ 200 := by
  have h := (sanitize_pref_of_take s).length_le
  have h2 : ((s.data.map sanitizeChar).take 200).length ≤ 200 := by
    simp [List.length_take]
  show (sanitize_filename s).data.length ≤ 200
  omega

theorem sanitize_length_le (s : String) :
    (sanitize_filename s).length ≤ s.length := by
  have h := (sanitize_pref_of_take s).length_le
  have h2 : ((s.data.map sanitizeChar).take 200).length ≤ s.data.length := by
    simp [List.length_take]
  show (sanitize_filename s).data.length ≤ s.data.length
  omega

theorem sanitize_no_bad_chars (s : String) :
    ∀ c ∈ (sanitize_filename s).data,
      invalidChars.contains c = false ∧ ctrlChars.contains c = false := by
  intro c hc
  have hmem : c ∈ s.data.map sanitizeChar :=
    List.take_subset _ _ ((sanitize_pref_of_take s).sublist.subset hc)
  obtain ⟨a, _, ha⟩ := List.mem_map.mp hmem
  subst ha
  unfold sanitizeChar
  by_cases h1 : invalidChars.contains a
  · simp only [h1, if_true]
    constructor <;> decide
  · by_cases h2 : ctrlChars.contains a
    · simp only [h1, h2]
      norm_num
      constructor <;> decide
    · simp only [h1, h2]
      norm_num
      exact ⟨by simpa using h1, by simpa using h2⟩

theorem getLast?_rdropWhile_not (p : Char → Bool) (l : List Char) (c : Char) :
    (List.rdropWhile p l).getLast? = some c → p c = false := by
  unfold List.rdropWhile
  intro h
  rw [List.getLast?_reverse] at h
  have hd := List.head?_dropWhile_not p l.reverse
  rw [h] at hd
  exact hd

theorem sanitize_no_trailing (s : String) :
    ∀ c, (sanitize_filename s).data.getLast? = some c → c ≠ '.' ∧ c ≠ ' ' := by
  intro c hc
  rw [sanitize_data] at hc
  have hp := getLast?_rdropWhile_not _ _ _ hc
  constructor <;> (intro h; subst h; simp at hp)

set_option maxRecDepth 4000 in
/-- Claim C4, as stated, is false: it asserts that every 250-character
input truncates to exactly 200 characters, but trailing dots are stripped
after truncation, so an input of 250 dots sanitizes to the empty string
(length 0, not 200). -/
theorem C4_counterexample :
    (String.mk (List.replicate 250 '.')).length = 250 ∧
    (sanitize_filename (String.mk (List.replicate 250 '.'))).length = 0 ∧
    ¬ (sanitize_filename (String.mk (List.replicate 250 '.'))).length = 200 := by
  refine ⟨?_, ?_, ?_⟩ <;> decide

/-- Claim C4 (amended): `sanitize_filename` replaces every character of
the invalid set and every CR, LF, TAB with an underscore, truncates to at
most 200 characters, and strips trailing dots and spaces after
truncation, so the result is a prefix of the 200-character truncation of
the character-replaced input, contains no invalid or control character,
never ends in a dot or space, and is at most 200 characters long (a
250-character input therefore yields at most, but not always exactly, 200
characters); the worked example and the empty string behave as stated. -/
theorem C4_sanitize_amended : ∀ s : String,
    ((sanitize_filename s).length ≤ 200 ∧
     (sanitize_filename s).length ≤ s.length ∧
     (sanitize_filename s).data <+: (s.data.map sanitizeChar).take 200 ∧
     (∀ c ∈ (sanitize_filename s).data,
        invalidChars.contains c = false ∧ ctrlChars.contains c = false) ∧
     (∀ c, (sanitize_filename s).data.getLast? = some c → c ≠ '.' ∧ c ≠ ' ')) ∧
    sanitize_filename "Meeting: Q4/Review <Important>" = "Meeting_ Q4_Review _Important_" ∧
    sanitize_filename "" = "" := by
  intro s
  refine ⟨⟨sanitize_length_le_200 s, sanitize_length_le s, sanitize_pref_of_take s,
    sanitize_no_bad_chars s, sanitize_no_trailing s⟩, ?_, ?_⟩ <;> decide

/-! ## Properties of get_attendance_status (claim C5) -/

theorem statusOutcome_eq_spec (a : Attendee) :
    statusOutcome a =
      (if a.responseStatus = some "accepted" then "attended"
       else if a.responseStatus = some "declined" then "rejected"
       else "unacknowledged") := by
  unfold statusOutcome
  cases h : a.responseStatus with
  | none => simp [h]
  | some s =>
    simp only [h, Option.getD_some, Option.some.injEq]
    by_cases h1 : s = "accepted"
    · simp [h1]
    · by_cases h2 : s = "declined"
      · simp [h1, h2]
      · simp [h1, h2]

theorem statusOutcome_mem (a : Attendee) :
    statusOutcome a = "attended" ∨ statusOutcome a = "rejected" ∨
      statusOutcome a = "unacknowledged" := by
  rw [statusOutcome_eq_spec]
  by_cases h1 : a.responseStatus = some "accepted"
  · simp [h1]
  · by_cases h2 : a.responseStatus = some "declined"
    · simp [h1, h2]
    · simp [h1, h2]

theorem attendanceScan_eq_find (u : String) (l : List Attendee) :
    attendanceScan u l =
      (match l.find? (emailMatches u) with
       | none => "unacknowledged"
       | some a =>
         if a.responseStatus = some "accepted" then "attended"
         else if a.responseStatus = some "declined" then "rejected"
         else "unacknowledged") := by
  induction l with
  | nil => rfl
  | cons a rest ih =>
    unfold attendanceScan
    rw [List.find?_cons]
    by_cases h : emailMatches u a
    · rw [if_pos h, h]
      exact statusOutcome_eq_spec a
    · rw [if_neg h, Bool.eq_false_iff.mpr h]
      exact ih

theorem attendanceScan_mem (u : String) (l : List Attendee) :
    attendanceScan u l = "attended" ∨ attendanceScan u l = "rejected" ∨
      attendanceScan u l = "unacknowledged" := by
  induction l with
  | nil => right; right; rfl
  | cons a rest ih =>
    unfold attendanceScan
    by_cases h : emailMatches u a
    · rw [if_pos h]
      exact statusOutcome_mem a
    · rw [if_neg h]
      exact ih

/-- Claim C5 (confirmed): `get_attendance_status` is total and
deterministic, always returning exactly one of attended, rejected,
unacknowledged.  It agrees with the specification's rule: the first
attendee whose email equals the user's email case-insensitively decides
the outcome (accepted maps to attended, declined to rejected, anything
else or absent to unacknowledged), and with no matching attendee the
outcome is unacknowledged. -/
theorem C5_classification_total : ∀ (e : ArchEvent) (u : String),
    get_attendance_status e u = get_attendance_status_spec e u ∧
    (get_attendance_status e u = "attended" ∨ get_attendance_status e u = "rejected" ∨
      get_attendance_status e u = "unacknowledged") := by
  intro e u
  exact ⟨attendanceScan_eq_find u e.attendees, attendanceScan_mem u e.attendees⟩

/-! ## Properties of get_date_range (claim C2) -/

/-- Claim C2, as stated, is false: with the current month February 2024
and `months = 3` the source's wrap rule gives start month
`12 - (monthoffset - 1) = 11` (November), while the claimed formula
`((currentMonth - (months-1) - 1) mod 12) + 1` gives 12 (December).  The
wrap rule ignores the current month in the underflow branch, and the
repository's own tests assert the rule's behaviour. -/
theorem C2_counterexample :
    get_date_range ⟨2024, 2, 15, 12, 0, 0⟩ 3 =
      Except.ok (⟨2023, 11, 1, 0, 0, 0⟩, ⟨2024, 2, 29, 23, 59, 59⟩) ∧
    (((2 : Int) - (3 - 1) - 1) % 12) + 1 = 12 ∧
    ¬ ((11 : Int) = (((2 : Int) - (3 - 1) - 1) % 12) + 1) := by
  refine ⟨by rfl, by decide, by decide⟩

/-- Claim C2 (amended): for `months ≥ 1` and a valid current month,
whenever the calculator returns a window its start is day 1 at 00:00:00,
its end is the last day (23:59:59) of the current month, and the start
year decrements exactly when the subtraction underflowed.  `months = 1`
yields the current month.  Without underflow (`months - 1 <
currentMonth`) the start month is `currentMonth - (months-1)`, which
satisfies the claimed mod-12 formula, and the year is unchanged.  On
underflow (`months ≥ 2`, `currentMonth ≤ months - 1`) the wrap rule gives
month `12 - (months - 2)` — independent of the current month, unlike the
claimed formula — with the year decremented, provided `months ≤ 13`; for
`months ≥ 14` the wrap rule produces a month below 1 and the call raises
`ValueError` instead of returning a window. -/
theorem C2_month_window_amended (now : DateTime6) (months : Nat)
    (hm : 1 ≤ months) (h1 : 1 ≤ now.month) (h2 : now.month ≤ 12) :
    (months = 1 →
      get_date_range now months =
        Except.ok (⟨now.year, now.month, 1, 0, 0, 0⟩,
          ⟨now.year, now.month, monthrange now.year now.month, 23, 59, 59⟩)) ∧
    (months - 1 < now.month →
      get_date_range now months =
        Except.ok (⟨now.year, now.month - (months - 1), 1, 0, 0, 0⟩,
          ⟨now.year, now.month, monthrange now.year now.month, 23, 59, 59⟩) ∧
      ((now.month - (months - 1) : Nat) : Int) =
        (((now.month : Int) - (((months - 1 : Nat) : Nat) : Int) - 1) % 12) + 1) ∧
    (2 ≤ months → now.month ≤ months - 1 → months ≤ 13 →
      get_date_range now months =
        Except.ok (⟨now.year - 1, 14 - months, 1, 0, 0, 0⟩,
          ⟨now.year, now.month, monthrange now.year now.month, 23, 59, 59⟩)) ∧
    (2 ≤ months → now.month ≤ months - 1 → 14 ≤ months →
      get_date_range now months = Except.error "ValueError: month must be in 1..12") ∧
    (∀ s e : DateTime6, get_date_range now months = Except.ok (s, e) →
      (s.day = 1 ∧ s.hour = 0 ∧ s.minute = 0 ∧ s.second = 0) ∧
      e = ⟨now.year, now.month, monthrange now.year now.month, 23, 59, 59⟩ ∧
      (s.year = now.year - 1 ↔ (2 ≤ months ∧ now.month ≤ months - 1))) := by
  refine ⟨?_, ?_, ?_, ?_, ?_⟩
  · intro h
    subst h
    simp only [get_date_range]
    rw [if_neg (show ¬(((1 : Nat) : Int) - 1 > 0) by norm_num)]
    dsimp only
    rw [if_pos (show 1 ≤ (now.month : Int) ∧ (now.month : Int) ≤ 12 by omega)]
    have e1 : ((now.month : Nat) : Int).toNat = now.month := by omega
    rw [e1]
  · intro hlt
    by_cases hm1 : months = 1
    · subst hm1
      constructor
      · simp only [get_date_range]
        rw [if_neg (show ¬(((1 : Nat) : Int) - 1 > 0) by norm_num)]
        dsimp only
        rw [if_pos (show 1 ≤ (now.month : Int) ∧ (now.month : Int) ≤ 12 by omega)]
        have e1 : ((now.month : Nat) : Int).toNat = now.month - (1 - 1) := by omega
        rw [e1]
      · omega
    · have hm2 : 2 ≤ months := by omega
      constructor
      · simp only [get_date_range]
        rw [if_pos (show (months : Int) - 1 > 0 by omega)]
        rw [if_neg (show ¬((now.month : Int) ≤ (months : Int) - 1) by omega)]
        dsimp only
        rw [if_pos (show 1 ≤ (now.month : Int) - ((months : Int) - 1) ∧
            (now.month : Int) - ((months : Int) - 1) ≤ 12 by omega)]
        have e1 : ((now.month : Int) - ((months : Int) - 1)).toNat =
            now.month - (months - 1) := by omega
        rw [e1]
      · omega
  · intro hm2 hund h13
    simp only [get_date_range]
    rw [if_pos (show (months : Int) - 1 > 0 by omega)]
    rw [if_pos (show (now.month : Int) ≤ (months : Int) - 1 by omega)]
    dsimp only
    rw [if_pos (show 1 ≤ (12 : Int) - ((months : Int) - 1 - 1) ∧
        (12 : Int) - ((months : Int) - 1 - 1) ≤ 12 by omega)]
    have e1 : ((12 : Int) - ((months : Int) - 1 - 1)).toNat = 14 - months := by omega
    rw [e1]
  · intro hm2 hund h14
    simp only [get_date_range]
    rw [if_pos (show (months : Int) - 1 > 0 by omega)]
    rw [if_pos (show (now.month : Int) ≤ (months : Int) - 1 by omega)]
    dsimp only
    rw [if_neg (show ¬(1 ≤ (12 : Int) - ((months : Int) - 1 - 1) ∧
        (12 : Int) - ((months : Int) - 1 - 1) ≤ 12) by omega)]
  · intro s e hok
    simp only [get_date_range] at hok
    by_cases hb1 : (months : Int) - 1 > 0
    · rw [if_pos hb1] at hok
      by_cases hb2 : (now.month : Int) ≤ (months : Int) - 1
      · rw [if_pos hb2] at hok
        dsimp only at hok
        by_cases hb3 : 1 ≤ (12 : Int) - ((months : Int) - 1 - 1) ∧
            (12 : Int) - ((months : Int) - 1 - 1) ≤ 12
        · rw [if_pos hb3] at hok
          simp only [Except.ok.injEq, Prod.mk.injEq] at hok
          obtain ⟨hs, he⟩ := hok
          subst hs
          subst he
          refine ⟨⟨rfl, rfl, rfl, rfl⟩, rfl, ?_⟩
          show (now.year - 1 = now.year - 1) ↔ (2 ≤ months ∧ now.month ≤ months - 1)
          omega
        · rw [if_neg hb3] at hok
          exact absurd hok (by simp)
      · rw [if_neg hb2] at hok
        dsimp only at hok
        rw [if_pos (show 1 ≤ (now.month : Int) - ((months : Int) - 1) ∧
            (now.month : Int) - ((months : Int) - 1) ≤ 12 by omega)] at hok
        simp only [Except.ok.injEq, Prod.mk.injEq] at hok
        obtain ⟨hs, he⟩ := hok
        subst hs
        subst he
        refine ⟨⟨rfl, rfl, rfl, rfl⟩, rfl, ?_⟩
        show ((now.year : Int) = now.year - 1) ↔ (2 ≤ months ∧ now.month ≤ months - 1)
        omega
    · rw [if_neg hb1] at hok
      dsimp only at hok
      rw [if_pos (show 1 ≤ (now.month : Int) ∧ (now.month : Int) ≤ 12 by omega)] at hok
      simp only [Except.ok.injEq, Prod.mk.injEq] at hok
      obtain ⟨hs, he⟩ := hok
      subst hs
      subst he
      refine ⟨⟨rfl, rfl, rfl, rfl⟩, rfl, ?_⟩
      show ((now.year : Int) = now.year - 1) ↔ (2 ≤ months ∧ now.month ≤ months - 1)
      omega

/-- Witness for the amended claim C2 at March 2024 with a six-month
window (the valid underflow branch: start August 2023, end 31 March
2024), together with a fourteen-month window from January 2024 hitting
the `ValueError` branch. -/
theorem C2_month_window_amended_witness :
    ((1 ≤ 6 ∧ 1 ≤ (3 : Nat) ∧ (3 : Nat) ≤ 12) ∧
      get_date_range ⟨2024, 3, 15, 12, 0, 0⟩ 6 =
        Except.ok (⟨2023, 8, 1, 0, 0, 0⟩, ⟨2024, 3, 31, 23, 59, 59⟩)) ∧
    ((1 ≤ 14 ∧ 1 ≤ (1 : Nat) ∧ (1 : Nat) ≤ 12) ∧
      get_date_range ⟨2024, 1, 15, 12, 0, 0⟩ 14 =
        Except.error "ValueError: month must be in 1..12") := by
  have h6 := C2_month_window_amended ⟨2024, 3, 15, 12, 0, 0⟩ 6
    (by decide) (by decide) (by decide)
  have h14 := C2_month_window_amended ⟨2024, 1, 15, 12, 0, 0⟩ 14
    (by decide) (by decide) (by decide)
  refine ⟨⟨⟨by decide, by decide, by decide⟩, ?_⟩,
    ⟨⟨by decide, by decide, by decide⟩, ?_⟩⟩
  · exact (h6.2.2.1 (by decide) (by decide) (by decide)).trans (by rfl)
  · exact h14.2.2.2.1 (by decide) (by decide) (by decide)

/-! ## Properties of the paginated fetch (claim C9) -/

theorem get_events_complete {α : Type} (q : PageResponse α)
    (hq : q.nextPageToken = none) :
    ∀ (ps rs : List (PageResponse α)) (tok : Option String),
    (∀ p ∈ ps, p.nextPageToken.isSome = true) →
    get_events (ps ++ q :: rs) tok =
      ((ps.map PageResponse.items).flatten ++ q.items,
       tok :: ps.map PageResponse.nextPageToken) := by
  intro ps
  induction ps with
  | nil =>
    intro rs tok _
    simp [get_events, hq]
  | cons p ps ih =>
    intro rs tok hall
    obtain ⟨t, ht⟩ := Option.isSome_iff_exists.mp (hall p (by simp))
    have hrest : ∀ p2 ∈ ps, p2.nextPageToken.isSome = true :=
      fun p2 hp2 => hall p2 (by simp [hp2])
    have ihh := ih rs (some t) hrest
    simp only [List.cons_append, get_events, ht, List.append_eq]
    rw [ihh]
    simp [List.append_assoc, ht]

/-- Claim C9 (confirmed): for a response sequence consisting of pages
`ps` that all carry a continuation cursor followed by a page `q` without
one, the fetch loop starts with no cursor, passes each response's cursor
to the next request (the request-token trace is `none` followed by the
cursors of `ps` in order), concatenates the pages' items in order,
returns exactly the sum of the page sizes, issues `ps.length + 1`
requests, and never requests any page after `q` — any further responses
`rs` are never consumed. -/
theorem C9_pagination {α : Type} (ps rs : List (PageResponse α)) (q : PageResponse α)
    (hps : ∀ p ∈ ps, p.nextPageToken.isSome = true)
    (hq : q.nextPageToken = none) :
    get_events (ps ++ q :: rs) none =
      ((ps.map PageResponse.items).flatten ++ q.items,
       none :: ps.map PageResponse.nextPageToken) ∧
    (get_events (ps ++ q :: rs) none).1.length =
      (ps.map (fun p => p.items.length)).sum + q.items.length ∧
    (get_events (ps ++ q :: rs) none).2.length = ps.length + 1 := by
  have h := get_events_complete q hq ps rs none hps
  refine ⟨h, ?_, ?_⟩
  · rw [h]
    simp only [List.length_append, List.length_flatten, List.map_map]
    rfl
  · rw [h]
    simp

/-- Witness for claim C9: two cursored pages followed by a final page,
with a stale extra response after it that is never requested. -/
theorem C9_pagination_witness :
    ((∀ p ∈ [PageResponse.mk [1, 2] (some "t1"), PageResponse.mk [3] (some "t2")],
        p.nextPageToken.isSome = true) ∧
      (PageResponse.mk ([4, 5] : List Nat) none).nextPageToken = none) ∧
    get_events
      ([PageResponse.mk [1, 2] (some "t1"), PageResponse.mk [3] (some "t2")] ++
        PageResponse.mk [4, 5] none :: [PageResponse.mk [9] none]) none =
      (([1, 2, 3, 4, 5] : List Nat), [none, some "t1", some "t2"]) := by
  have h := C9_pagination
    [PageResponse.mk [1, 2] (some "t1"), PageResponse.mk [3] (some "t2")]
    [PageResponse.mk [9] none] (PageResponse.mk [4, 5] none)
    (by decide) rfl
  exact ⟨⟨by decide, rfl⟩, h.1.trans (by decide)⟩

/-! ## Injectivity of decimal numerals

The collision-resolution loops disambiguate filenames with the decimal
rendering of a counter, so distinct counters must give distinct
filenames; this section proves that `Nat.repr` is injective. -/

theorem toDigitsCore_eq_digits :
    ∀ (f n : Nat) (l : List Char), 0 < n → n < f →
      Nat.toDigitsCore 10 f n l = ((Nat.digits 10 n).map Nat.digitChar).reverse ++ l := by
  intro f
  induction f with
  | zero => intro n l _ hf; omega
  | succ f ih =>
    intro n l h0 hf
    have hdig : Nat.digits 10 n = n % 10 :: Nat.digits 10 (n / 10) :=
      Nat.digits_def' (by norm_num) h0
    by_cases hdiv : n / 10 = 0
    · simp [Nat.toDigitsCore, hdiv, hdig]
    · have hlt : n / 10 < n := Nat.div_lt_self h0 (by norm_num)
      have ihh := ih (n / 10) (Nat.digitChar (n % 10) :: l)
        (Nat.pos_of_ne_zero hdiv) (by omega)
      simp only [Nat.toDigitsCore, hdiv, if_neg hdiv]
      rw [ihh, hdig]
      simp

theorem repr_data_eq_digits (n : Nat) (h0 : 0 < n) :
    (Nat.repr n).data = ((Nat.digits 10 n).map Nat.digitChar).reverse := by
  show (Nat.toDigits 10 n).asString.data = _
  unfold Nat.toDigits
  rw [toDigitsCore_eq_digits (n + 1) n [] h0 (by omega)]
  simp [List.asString]

theorem digitChar_inj_lt :
    ∀ a, a < 10 → ∀ b, b < 10 → Nat.digitChar a = Nat.digitChar b → a = b := by decide

theorem map_digitChar_inj :
    ∀ (l1 l2 : List Nat), (∀ x ∈ l1, x < 10) → (∀ x ∈ l2, x < 10) →
      l1.map Nat.digitChar = l2.map Nat.digitChar → l1 = l2 := by
  intro l1
  induction l1 with
  | nil =>
    intro l2 _ _ h
    cases l2 with
    | nil => rfl
    | cons b bs => simp at h
  | cons a as ih =>
    intro l2 h1 h2 h
    cases l2 with
    | nil => simp at h
    | cons b bs =>
      simp only [List.map_cons, List.cons.injEq] at h
      have ha := h1 a (by simp)
      have hb := h2 b (by simp)
      have hab := digitChar_inj_lt a ha b hb h.1
      rw [hab, ih bs (fun x hx => h1 x (by simp [hx])) (fun x hx => h2 x (by simp [hx])) h.2]

theorem natRepr_injective : Function.Injective Nat.repr := by
  intro m n h
  have hdata : (Nat.repr m).data = (Nat.repr n).data := congrArg String.data h
  rcases Nat.eq_zero_or_pos m with hm | hm <;> rcases Nat.eq_zero_or_pos n with hn | hn
  · omega
  · exfalso
    subst hm
    rw [repr_data_eq_digits n hn] at hdata
    have h0 : (Nat.repr 0).data = ['0'] := rfl
    rw [h0] at hdata
    have hrev : (Nat.digits 10 n).map Nat.digitChar = ['0'] := by
      have := congrArg List.reverse hdata
      simpa using this.symm
    match hd : Nat.digits 10 n, hrev2 : (Nat.digits 10 n).map Nat.digitChar with
    | [], _ => rw [Nat.digits_eq_nil_iff_eq_zero] at hd; omega
    | d :: ds, _ =>
      rw [hd] at hrev
      simp only [List.map_cons] at hrev
      have hds : ds = [] := by
        cases ds with
        | nil => rfl
        | cons x xs => simp at hrev
      subst hds
      simp only [List.map_nil, List.cons.injEq] at hrev
      have hdlt : d < 10 := Nat.digits_lt_base (by norm_num) (by rw [hd]; simp)
      have hd0 : d = 0 := by
        have := digitChar_inj_lt d hdlt 0 (by norm_num) (by rw [hrev.1]; rfl)
        omega
      have := Nat.ofDigits_digits 10 n
      rw [hd, hd0] at this
      simp [Nat.ofDigits] at this
      omega
  · exfalso
    subst hn
    rw [repr_data_eq_digits m hm] at hdata
    have h0 : (Nat.repr 0).data = ['0'] := rfl
    rw [h0] at hdata
    have hrev : (Nat.digits 10 m).map Nat.digitChar = ['0'] := by
      have := congrArg List.reverse hdata
      simpa using this
    match hd : Nat.digits 10 m, hrev2 : (Nat.digits 10 m).map Nat.digitChar with
    | [], _ => rw [Nat.digits_eq_nil_iff_eq_zero] at hd; omega
    | d :: ds, _ =>
      rw [hd] at hrev
      simp only [List.map_cons] at hrev
      have hds : ds = [] := by
        cases ds with
        | nil => rfl
        | cons x xs => simp at hrev
      subst hds
      simp only [List.map_nil, List.cons.injEq] at hrev
      have hdlt : d < 10 := Nat.digits_lt_base (by norm_num) (by rw [hd]; simp)
      have hd0 : d = 0 := by
        have := digitChar_inj_lt d hdlt 0 (by norm_num) (by rw [hrev.1]; rfl)
        omega
      have := Nat.ofDigits_digits 10 m
      rw [hd, hd0] at this
      simp [Nat.ofDigits] at this
      omega
  · rw [repr_data_eq_digits m hm, repr_data_eq_digits n hn] at hdata
    have hmap : (Nat.digits 10 m).map Nat.digitChar = (Nat.digits 10 n).map Nat.digitChar :=
      List.reverse_injective hdata
    have hdig : Nat.digits 10 m = Nat.digits 10 n :=
      map_digitChar_inj _ _
        (fun x hx => Nat.digits_lt_base (by norm_num) hx)
        (fun x hx => Nat.digits_lt_base (by norm_num) hx) hmap
    calc m = Nat.ofDigits 10 (Nat.digits 10 m) := (Nat.ofDigits_digits 10 m).symm
      _ = Nat.ofDigits 10 (Nat.digits 10 n) := by rw [hdig]
      _ = n := Nat.ofDigits_digits 10 n

theorem repr_data_ne_nil (n : Nat) : (Nat.repr n).data ≠ [] := by
  rcases Nat.eq_zero_or_pos n with h | h
  · subst h
    exact fun hc => (by decide : (Nat.repr 0).data ≠ []) hc
  · rw [repr_data_eq_digits n h]
    intro hc
    rw [List.reverse_eq_nil_iff, List.map_eq_nil_iff, Nat.digits_eq_nil_iff_eq_zero] at hc
    omega

theorem digitChar_not_special : ∀ d, d < 10 →
    Nat.digitChar d ≠ '.' ∧ Nat.digitChar d ≠ '_' := by decide

theorem repr_data_no_dot (n : Nat) :
    ∀ c ∈ (Nat.repr n).data, c ≠ '.' := by
  intro c hc
  rcases Nat.eq_zero_or_pos n with h | h
  · subst h
    have h0 : (Nat.repr 0).data = ['0'] := rfl
    rw [h0] at hc
    have : c = '0' := by simpa using hc
    subst this
    decide
  · rw [repr_data_eq_digits n h] at hc
    rw [List.mem_reverse] at hc
    obtain ⟨d, hd, ha⟩ := List.mem_map.mp hc
    subst ha
    exact (digitChar_not_special d (Nat.digits_lt_base (by norm_num) hd)).1

/-! ## Structure of the collision-resolution candidates (claim C3) -/

theorem string_append_left_cancel {a b c : String} (h : a ++ b = a ++ c) : b = c := by
  have hd : (a ++ b).data = (a ++ c).data := congrArg String.data h
  simp only [String.data_append] at hd
  exact String.toList_inj.mp (List.append_cancel_left hd)

theorem append_cons_eq_of_not_mem {α : Type} (c : α) :
    ∀ (a1 a2 t1 t2 : List α), c ∉ a1 → c ∉ a2 →
      a1 ++ c :: t1 = a2 ++ c :: t2 → a1 = a2 ∧ t1 = t2 := by
  intro a1
  induction a1 with
  | nil =>
    intro a2 t1 t2 _ h2 h
    cases a2 with
    | nil => simpa using h
    | cons b bs =>
      simp only [List.nil_append, List.cons_append, List.cons.injEq] at h
      exact absurd (h.1 ▸ List.mem_cons_self b bs) h2
  | cons a as ih =>
    intro a2 t1 t2 h1 h2 h
    cases a2 with
    | nil =>
      simp only [List.cons_append, List.nil_append, List.cons.injEq] at h
      exact absurd (h.1 ▸ List.mem_cons_self a as) (h.1 ▸ h1)
    | cons b bs =>
      simp only [List.cons_append, List.cons.injEq] at h
      have has : c ∉ as := fun hm => h1 (List.mem_cons_of_mem a hm)
      have hbs : c ∉ bs := fun hm => h2 (List.mem_cons_of_mem b hm)
      obtain ⟨he1, he2⟩ := ih bs t1 t2 has hbs h.2
      exact ⟨by rw [h.1, he1], he2⟩

theorem dropWhile_ne_of_mem {α : Type} [DecidableEq α] (c : α) :
    ∀ l : List α, c ∈ l →
      ∃ t, l.dropWhile (fun x => x ≠ c) = c :: t := by
  intro l
  induction l with
  | nil => intro h; simp at h
  | cons a as ih =>
    intro h
    by_cases hac : a = c
    · subst hac
      refine ⟨as, ?_⟩
      rw [List.dropWhile_cons]
      simp
    · have hmem : c ∈ as := by
        rcases List.mem_cons.mp h with h1 | h1
        · exact absurd h1.symm hac
        · exact h1
      obtain ⟨t, ht⟩ := ih hmem
      refine ⟨t, ?_⟩
      rw [List.dropWhile_cons, if_pos (by simp [hac]), ht]

theorem rsplitDot_some (s stem ext : String) (h : rsplitDot s = some (stem, ext)) :
    s.data = stem.data ++ '.' :: ext.data ∧ '.' ∉ ext.data := by
  unfold rsplitDot at h
  by_cases hmem : '.' ∈ s.data.reverse
  · rw [if_pos hmem] at h
    simp only [Option.some.injEq, Prod.mk.injEq] at h
    obtain ⟨hstem, hext⟩ := h
    obtain ⟨t, ht⟩ := dropWhile_ne_of_mem '.' s.data.reverse hmem
    have hsplit : s.data.reverse =
        s.data.reverse.takeWhile (fun x => x ≠ '.') ++ ('.' :: t) := by
      conv_lhs => rw [← List.takeWhile_append_dropWhile (p := fun x => x ≠ '.')
        (l := s.data.reverse), ht]
    have hdata : s.data =
        t.reverse ++ '.' :: (s.data.reverse.takeWhile (fun x => x ≠ '.')).reverse := by
      have h2 := congrArg List.reverse hsplit
      rw [List.reverse_reverse] at h2
      conv_lhs => rw [h2]
      rw [List.reverse_append, List.reverse_cons, List.append_assoc]
      rfl
    constructor
    · rw [← hstem, ← hext]
      show s.data =
        ((s.data.reverse.dropWhile (fun c => c ≠ '.')).tail).reverse ++
          '.' :: (s.data.reverse.takeWhile (fun c => c ≠ '.')).reverse
      rw [ht]
      exact hdata
    · rw [← hext]
      show ¬ '.' ∈ (s.data.reverse.takeWhile (fun c => c ≠ '.')).reverse
      intro hc
      rw [List.mem_reverse] at hc
      have := List.mem_takeWhile_imp hc
      simp at this
  · rw [if_neg hmem] at h
    exact absurd h (by simp)

theorem rsplitDot_none (s : String) (h : rsplitDot s = none) : '.' ∉ s.data := by
  unfold rsplitDot at h
  by_cases hmem : '.' ∈ s.data.reverse
  · rw [if_pos hmem] at h
    exact absurd h (by simp)
  · intro hc
    exact hmem (List.mem_reverse.mpr hc)

theorem eventCandidate_succ_some (filename stem ext : String) (n : Nat)
    (h : rsplitDot filename = some (stem, ext)) :
    eventCandidate filename (n + 1) = stem ++ "_" ++ Nat.repr (n + 1) ++ "." ++ ext := by
  show (match rsplitDot filename with
    | some (stem, ext) => stem ++ "_" ++ Nat.repr (n + 1) ++ "." ++ ext
    | none => filename ++ "_" ++ Nat.repr (n + 1)) = _
  rw [h]

theorem eventCandidate_succ_none (filename : String) (n : Nat)
    (h : rsplitDot filename = none) :
    eventCandidate filename (n + 1) = filename ++ "_" ++ Nat.repr (n + 1) := by
  show (match rsplitDot filename with
    | some (stem, ext) => stem ++ "_" ++ Nat.repr (n + 1) ++ "." ++ ext
    | none => filename ++ "_" ++ Nat.repr (n + 1)) = _
  rw [h]

theorem noteCandidate_succ_some (safe_title stem ext : String) (n : Nat)
    (h : rsplitDot safe_title = some (stem, ext)) :
    noteCandidate safe_title (n + 1) = stem ++ "_" ++ Nat.repr (n + 1) ++ ".txt" := by
  show (match rsplitDot safe_title with
    | some (stem, _) => stem ++ "_" ++ Nat.repr (n + 1) ++ ".txt"
    | none => safe_title ++ "_" ++ Nat.repr (n + 1) ++ ".txt") = _
  rw [h]

theorem noteCandidate_succ_none (safe_title : String) (n : Nat)
    (h : rsplitDot safe_title = none) :
    noteCandidate safe_title (n + 1) = safe_title ++ "_" ++ Nat.repr (n + 1) ++ ".txt" := by
  show (match rsplitDot safe_title with
    | some (stem, _) => stem ++ "_" ++ Nat.repr (n + 1) ++ ".txt"
    | none => safe_title ++ "_" ++ Nat.repr (n + 1) ++ ".txt") = _
  rw [h]

theorem underscore_data : ("_" : String).data = ['_'] := rfl

theorem dot_data : ("." : String).data = ['.'] := rfl

theorem repr_length_pos (n : Nat) : 1 ≤ (Nat.repr n).length := by
  show 1 ≤ (Nat.repr n).data.length
  cases hc : (Nat.repr n).data with
  | nil => exact absurd hc (repr_data_ne_nil n)
  | cons x xs => simp

theorem eventCandidate_injective (filename : String) :
    Function.Injective (eventCandidate filename) := by
  have hzs : ∀ (n : Nat), eventCandidate filename 0 ≠ eventCandidate filename (n + 1) := by
    intro n heq
    cases hsplit : rsplitDot filename with
    | some p =>
      obtain ⟨stem, ext⟩ := p
      obtain ⟨hdata, _⟩ := rsplitDot_some filename stem ext hsplit
      rw [show eventCandidate filename 0 = filename from rfl,
        eventCandidate_succ_some filename stem ext n hsplit] at heq
      have hd := congrArg String.data heq
      rw [hdata] at hd
      simp only [String.data_append, underscore_data, dot_data,
        List.append_assoc, List.singleton_append] at hd
      have h1 := List.append_cancel_left hd
      exact absurd (List.head_eq_of_cons_eq h1) (by decide)
    | none =>
      rw [show eventCandidate filename 0 = filename from rfl,
        eventCandidate_succ_none filename n hsplit] at heq
      have hd := congrArg String.length heq
      simp only [String.length_append] at hd
      have hr := repr_length_pos (n + 1)
      have hu : ("_" : String).length = 1 := rfl
      omega
  intro m n heq
  match m, n with
  | 0, 0 => rfl
  | 0, b + 1 => exact absurd heq (hzs b)
  | a + 1, 0 => exact absurd heq.symm (hzs a)
  | a + 1, b + 1 =>
    cases hsplit : rsplitDot filename with
    | some p =>
      obtain ⟨stem, ext⟩ := p
      rw [eventCandidate_succ_some filename stem ext a hsplit,
        eventCandidate_succ_some filename stem ext b hsplit] at heq
      have hd := congrArg String.data heq
      simp only [String.data_append, underscore_data, dot_data,
        List.append_assoc, List.singleton_append] at hd
      have h1 := List.append_cancel_left hd
      have h2 := List.tail_eq_of_cons_eq h1
      have h3 := append_cons_eq_of_not_mem '.' _ _ _ _
        (fun hc => repr_data_no_dot (a + 1) '.' hc rfl)
        (fun hc => repr_data_no_dot (b + 1) '.' hc rfl) h2
      have h4 : Nat.repr (a + 1) = Nat.repr (b + 1) := String.toList_inj.mp h3.1
      have := natRepr_injective h4
      omega
    | none =>
      rw [eventCandidate_succ_none filename a hsplit,
        eventCandidate_succ_none filename b hsplit] at heq
      have hd := congrArg String.data heq
      simp only [String.data_append, underscore_data,
        List.append_assoc, List.singleton_append] at hd
      have h1 := List.append_cancel_left hd
      have h2 := List.tail_eq_of_cons_eq h1
      have h4 : Nat.repr (a + 1) = Nat.repr (b + 1) := String.toList_inj.mp h2
      have := natRepr_injective h4
      omega

theorem noteCandidate_injective (safe_title : String) :
    Function.Injective (noteCandidate safe_title) := by
  have htxt : (".txt" : String).data = '.' :: ['t', 'x', 't'] := rfl
  have hzs : ∀ (n : Nat), noteCandidate safe_title 0 ≠ noteCandidate safe_title (n + 1) := by
    intro n heq
    cases hsplit : rsplitDot safe_title with
    | some p =>
      obtain ⟨stem, ext⟩ := p
      obtain ⟨hdata, _⟩ := rsplitDot_some safe_title stem ext hsplit
      rw [show noteCandidate safe_title 0 = safe_title ++ ".txt" from rfl,
        noteCandidate_succ_some safe_title stem ext n hsplit] at heq
      have hd := congrArg String.data heq
      rw [String.data_append, hdata] at hd
      simp only [String.data_append, underscore_data, htxt,
        List.append_assoc, List.singleton_append, List.cons_append] at hd
      have h1 := List.append_cancel_left hd
      exact absurd (List.head_eq_of_cons_eq h1) (by decide)
    | none =>
      rw [show noteCandidate safe_title 0 = safe_title ++ ".txt" from rfl,
        noteCandidate_succ_none safe_title n hsplit] at heq
      have hd := congrArg String.data heq
      simp only [String.data_append, underscore_data, htxt,
        List.append_assoc, List.singleton_append, List.cons_append] at hd
      have h1 := List.append_cancel_left hd
      exact absurd (List.head_eq_of_cons_eq h1) (by decide)
  intro m n heq
  match m, n with
  | 0, 0 => rfl
  | 0, b + 1 => exact absurd heq (hzs b)
  | a + 1, 0 => exact absurd heq.symm (hzs a)
  | a + 1, b + 1 =>
    have hd : (Nat.repr (a + 1)).data ++ '.' :: ['t', 'x', 't'] =
        (Nat.repr (b + 1)).data ++ '.' :: ['t', 'x', 't'] := by
      cases hsplit : rsplitDot safe_title with
      | some p =>
        obtain ⟨stem, ext⟩ := p
        rw [noteCandidate_succ_some safe_title stem ext a hsplit,
          noteCandidate_succ_some safe_title stem ext b hsplit] at heq
        have hdd := congrArg String.data heq
        simp only [String.data_append, underscore_data, htxt,
          List.append_assoc, List.singleton_append] at hdd
        exact List.tail_eq_of_cons_eq (List.append_cancel_left hdd)
      | none =>
        rw [noteCandidate_succ_none safe_title a hsplit,
          noteCandidate_succ_none safe_title b hsplit] at heq
        have hdd := congrArg String.data heq
        simp only [String.data_append, underscore_data, htxt,
          List.append_assoc, List.singleton_append] at hdd
        exact List.tail_eq_of_cons_eq (List.append_cancel_left hdd)
    have h3 := append_cons_eq_of_not_mem '.' _ _ _ _
      (fun hc => repr_data_no_dot (a + 1) '.' hc rfl)
      (fun hc => repr_data_no_dot (b + 1) '.' hc rfl) hd
    have h4 : Nat.repr (a + 1) = Nat.repr (b + 1) := String.toList_inj.mp h3.1
    have := natRepr_injective h4
    omega

/-! ## The collision-resolution loop never returns an existing path -/

theorem resolveGo_not_mem (fs : List String) (dir : String) (cand : Nat → String) :
    ∀ (fuel n : Nat), (∃ k, k ≤ fuel ∧ dir ++ cand (n + k) ∉ fs) →
      resolveGo fs dir cand fuel n ∉ fs := by
  intro fuel
  induction fuel with
  | zero =>
    intro n h
    obtain ⟨k, hk, hfree⟩ := h
    have hk0 : k = 0 := by omega
    subst hk0
    simpa using hfree
  | succ fuel ih =>
    intro n h
    obtain ⟨k, hk, hfree⟩ := h
    rw [resolveGo]
    by_cases hmem : dir ++ cand n ∈ fs
    · rw [if_pos hmem]
      apply ih
      have hk0 : k ≠ 0 := by
        intro hz
        subst hz
        simp only [Nat.add_zero] at hfree
        exact hfree hmem
      refine ⟨k - 1, by omega, ?_⟩
      have harith : n + 1 + (k - 1) = n + k := by omega
      rw [harith]
      exact hfree
    · rw [if_neg hmem]
      exact hmem

theorem exists_free_candidate (fs : List String) (f : Nat → String)
    (hinj : Function.Injective f) : ∃ k, k ≤ fs.length ∧ f k ∉ fs := by
  by_contra hc
  push_neg at hc
  have hmaps : ∀ a ∈ Finset.range (fs.length + 1), f a ∈ fs.toFinset := by
    intro a ha
    rw [List.mem_toFinset]
    exact hc a (Nat.lt_succ_iff.mp (Finset.mem_range.mp ha))
  have hinjOn : Set.InjOn f (Finset.range (fs.length + 1)) :=
    fun a _ b _ h => hinj h
  have hcard := Finset.card_le_card_of_injOn f hmaps hinjOn
  rw [Finset.card_range] at hcard
  have hle := fs.toFinset_card_le
  omega

theorem resolveEventPath_not_mem (fs : List String) (dir filename : String) :
    resolveEventPath fs dir filename ∉ fs := by
  unfold resolveEventPath
  apply resolveGo_not_mem
  have hinj : Function.Injective (fun k => dir ++ eventCandidate filename k) :=
    fun a b h => eventCandidate_injective filename (string_append_left_cancel h)
  obtain ⟨k, hk, hfree⟩ := exists_free_candidate fs _ hinj
  refine ⟨k, by omega, ?_⟩
  simpa using hfree

theorem resolveNotePath_not_mem (fs : List String) (dir safe_title : String) :
    resolveNotePath fs dir safe_title ∉ fs := by
  unfold resolveNotePath
  apply resolveGo_not_mem
  have hinj : Function.Injective (fun k => dir ++ noteCandidate safe_title k) :=
    fun a b h => noteCandidate_injective safe_title (string_append_left_cancel h)
  obtain ⟨k, hk, hfree⟩ := exists_free_candidate fs _ hinj
  refine ⟨k, by omega, ?_⟩
  simpa using hfree

theorem resolveGo_free (fs : List String) (dir : String) (cand : Nat → String)
    (fuel n : Nat) (h : dir ++ cand n ∉ fs) :
    resolveGo fs dir cand fuel n = dir ++ cand n := by
  cases fuel with
  | zero => rfl
  | succ fuel => rw [resolveGo, if_neg h]

theorem resolveGo_step (fs : List String) (dir : String) (cand : Nat → String)
    (fuel n : Nat) (h : dir ++ cand n ∈ fs) :
    resolveGo fs dir cand (fuel + 1) n = resolveGo fs dir cand fuel (n + 1) := by
  rw [resolveGo, if_pos h]

theorem bump_fs (st : ArchState) (status : String) : (bump st status).fs = st.fs := by
  unfold bump
  split_ifs <;> rfl

/-! ## Claim C3: collision-safe file organization -/

/-- Claim C3, as stated, is false in its last part: the note
disambiguation is not the "same `_<n>` rule restricted to the `.txt`
extension".  For a sanitized note title containing a dot, such as `a.b`
with existing file `a.b.txt`, the loop in `download_gemini_notes` splits
the title (not the full filename) at its last dot and drops the part
after it, producing `a_1.txt`, while the event-file rule applied to
`a.b.txt` would produce `a.b_1.txt`. -/
theorem C3_counterexample :
    resolveNotePath ["a.b.txt"] "" "a.b" = "a_1.txt" ∧
    resolveNotePathSpec ["a.b.txt"] "" "a.b" = "a.b_1.txt" ∧
    ¬ (resolveNotePath ["a.b.txt"] "" "a.b" =
        resolveNotePathSpec ["a.b.txt"] "" "a.b") := by
  refine ⟨?_, ?_, ?_⟩ <;> decide

/-- Claim C3 (amended): collision resolution is deterministic, inserts
`_<n>` (n starting at 1) before the final extension and retries until a
non-existing path is found, and never returns an existing path — for
event files and equally for notes, except that the note rule splits the
sanitized title (not the full `.txt` filename) at its last dot, dropping
any text after that dot.  Two events that sanitize to the same base
filename under the same outcome/date directory yield two distinct files,
the second suffixed `_1` before its extension. -/
theorem C3_collision_amended (fs : List String) (dir2 fn2 : String)
    (st : ArchState) (e : ArchEvent) (user_email date_str : String)
    (status dir filename : String)
    (hdate : eventDate e = some date_str)
    (hstatus : status = get_attendance_status e user_email)
    (hdir : dir = status ++ "/" ++ date_str ++ "/")
    (hfn : filename = sanitize_filename (e.summary.getD "Untitled Event") ++ ".yaml")
    (h0 : dir ++ filename ∉ st.fs)
    (h1 : dir ++ eventCandidate filename 1 ∉ st.fs) :
    resolveEventPath fs dir2 fn2 ∉ fs ∧
    resolveNotePath fs dir2 fn2 ∉ fs ∧
    dir ++ filename ≠ dir ++ eventCandidate filename 1 ∧
    (saveEventStep user_email st e).fs = st.fs ++ [dir ++ filename] ∧
    (saveEventStep user_email (saveEventStep user_email st e) e).fs =
      st.fs ++ [dir ++ filename] ++ [dir ++ eventCandidate filename 1] := by
  have hne01 : dir ++ filename ≠ dir ++ eventCandidate filename 1 := by
    intro h
    have h2 : eventCandidate filename 0 = eventCandidate filename 1 :=
      string_append_left_cancel (a := dir) h
    have := eventCandidate_injective filename h2
    omega
  have hr0 : resolveEventPath st.fs dir filename = dir ++ filename := by
    unfold resolveEventPath
    rw [resolveGo_free st.fs dir (eventCandidate filename) (st.fs.length + 1) 0 h0]
    rfl
  have hfree1 : dir ++ eventCandidate filename 1 ∉ st.fs ++ [dir ++ filename] := by
    intro hmem
    rcases List.mem_append.mp hmem with h | h
    · exact h1 h
    · have h2 : dir ++ eventCandidate filename 1 = dir ++ filename := by simpa using h
      exact hne01 h2.symm
  have hr1 : resolveEventPath (st.fs ++ [dir ++ filename]) dir filename =
      dir ++ eventCandidate filename 1 := by
    unfold resolveEventPath
    have hlen : (st.fs ++ [dir ++ filename]).length = st.fs.length + 1 := by simp
    rw [hlen]
    have hmem0 : dir ++ eventCandidate filename 0 ∈ st.fs ++ [dir ++ filename] := by
      show dir ++ filename ∈ _
      simp
    rw [resolveGo_step _ _ _ _ _ hmem0]
    exact resolveGo_free _ _ _ _ _ hfree1
  have hstep1 : (saveEventStep user_email st e).fs = st.fs ++ [dir ++ filename] := by
    unfold saveEventStep
    rw [hdate]
    simp only [bump_fs]
    rw [← hstatus, ← hdir, ← hfn, hr0]
  refine ⟨resolveEventPath_not_mem fs dir2 fn2, resolveNotePath_not_mem fs dir2 fn2,
    hne01, hstep1, ?_⟩
  unfold saveEventStep
  rw [hdate]
  simp only [bump_fs]
  rw [← hstatus, ← hdir, ← hfn, hr0, hr1]

/-- Witness for the amended claim C3: an event titled Standup archived
twice into an initially empty tree produces `Standup.yaml` and then
`Standup_1.yaml`. -/
theorem C3_collision_amended_witness :
    (eventDate ⟨some "Standup", [],
        some ⟨some ⟨"2024-01-02", 0⟩, none⟩⟩ = some "2024-01-02" ∧
      ("unacknowledged/2024-01-02/" ++ "Standup.yaml" ∉
        (⟨[], 0, 0, 0⟩ : ArchState).fs) ∧
      ("unacknowledged/2024-01-02/" ++
        eventCandidate "Standup.yaml" 1 ∉ (⟨[], 0, 0, 0⟩ : ArchState).fs)) ∧
    (saveEventStep "user@example.com" ⟨[], 0, 0, 0⟩
        ⟨some "Standup", [], some ⟨some ⟨"2024-01-02", 0⟩, none⟩⟩).fs =
      ["unacknowledged/2024-01-02/Standup.yaml"] ∧
    (saveEventStep "user@example.com"
        (saveEventStep "user@example.com" ⟨[], 0, 0, 0⟩
          ⟨some "Standup", [], some ⟨some ⟨"2024-01-02", 0⟩, none⟩⟩)
        ⟨some "Standup", [], some ⟨some ⟨"2024-01-02", 0⟩, none⟩⟩).fs =
      ["unacknowledged/2024-01-02/Standup.yaml",
       "unacknowledged/2024-01-02/Standup_1.yaml"] := by
  have h := C3_collision_amended [] "" "" ⟨[], 0, 0, 0⟩
    ⟨some "Standup", [], some ⟨some ⟨"2024-01-02", 0⟩, none⟩⟩
    "user@example.com" "2024-01-02"
    "unacknowledged" "unacknowledged/2024-01-02/" "Standup.yaml"
    rfl (by decide) rfl (by decide) (by decide) (by decide)
  exact ⟨⟨rfl, by decide, by decide⟩,
    h.2.2.2.1.trans (by decide), h.2.2.2.2.trans (by decide)⟩

/-! ## The streaming aggregation (claims C1, C8) -/

theorem dictInsert_fresh (stats : List (String × Int × Nat)) (k : String) (v : Int × Nat)
    (h : ∀ p ∈ stats, p.1 ≠ k) : dictInsert stats k v = stats ++ [(k, v)] := by
  unfold dictInsert
  rw [if_neg]
  intro hmem
  obtain ⟨p, hp, hpk⟩ := List.mem_map.mp hmem
  exact h p hp hpk

theorem sumCounts_append (s1 s2 : List (String × Int × Nat)) :
    sumCounts (s1 ++ s2) = sumCounts s1 + sumCounts s2 := by
  simp [sumCounts]

theorem sumDurs_append (s1 s2 : List (String × Int × Nat)) :
    sumDurs (s1 ++ s2) = sumDurs s1 + sumDurs s2 := by
  simp [sumDurs]

/-- Invariant of the aggregation loop: starting from an open accumulator
for day `cur` and a sealed dictionary whose keys all precede `cur`, a
sorted-by-date tail of qualifying events with parsed times produces no
error, counts every event, and seals one dictionary entry per distinct
date. -/
theorem exportGo_sorted_inv (user_email : String) :
    ∀ (l : List Event) (cnt0 : Nat) (cur : String) (cum : Int) (c : Nat)
      (stats : List (String × Int × Nat)),
    (∀ e ∈ l, qualifies user_email e = true ∧ e.start.dateTime.isSome = true ∧
        e.stop.dateTime.isSome = true) →
    List.Sorted (· ≤ ·) (cur :: l.map dateStrOf) →
    (∀ p ∈ stats, p.1 < cur) →
    ∃ st : AggState,
      exportEventsGo user_email l ⟨cnt0, some cur, cum, c, stats⟩ = Except.ok st ∧
      st.count = cnt0 + l.length ∧
      (finalizeStats st).length = stats.length + ((cur :: l.map dateStrOf).dedup).length ∧
      sumCounts (finalizeStats st) = sumCounts stats + c + l.length ∧
      sumDurs (finalizeStats st) = sumDurs stats + cum + (l.map durationOf).sum := by
  intro l
  induction l with
  | nil =>
    intro cnt0 cur cum c stats hq hsort hfresh
    have hfin : finalizeStats ⟨cnt0, some cur, cum, c, stats⟩ = stats ++ [(cur, cum, c)] := by
      unfold finalizeStats
      exact dictInsert_fresh stats cur (cum, c) (fun p hp => ne_of_lt (hfresh p hp))
    refine ⟨⟨cnt0, some cur, cum, c, stats⟩, rfl, by simp, ?_, ?_, ?_⟩
    · rw [hfin]
      simp
    · rw [hfin, sumCounts_append]
      simp [sumCounts]
    · rw [hfin, sumDurs_append]
      simp [sumDurs]
  | cons e rest ih =>
    intro cnt0 cur cum c stats hq hsort hfresh
    obtain ⟨hqe, hs, he⟩ := hq e (by simp)
    obtain ⟨si, hsi⟩ := Option.isSome_iff_exists.mp hs
    obtain ⟨ei, hei⟩ := Option.isSome_iff_exists.mp he
    have hdse : dateStrOf e = si.date := by
      unfold dateStrOf
      rw [hsi]
      rfl
    have hde : durationOf e = ei.seconds - si.seconds := by
      unfold durationOf
      rw [hsi, hei]
      rfl
    have hqrest : ∀ e2 ∈ rest, qualifies user_email e2 = true ∧
        e2.start.dateTime.isSome = true ∧ e2.stop.dateTime.isSome = true :=
      fun e2 he2 => hq e2 (by simp [he2])
    have hcurle : cur ≤ dateStrOf e :=
      List.rel_of_sorted_cons hsort (dateStrOf e) (by simp)
    by_cases hcd : cur = si.date
    · -- same day: accumulate
      have hproc : processEvent user_email ⟨cnt0, some cur, cum, c, stats⟩ e =
          Except.ok ⟨cnt0 + 1, some cur, cum + (ei.seconds - si.seconds), c + 1, stats⟩ := by
        unfold processEvent
        rw [if_pos hqe, hsi, hei]
        dsimp only
        rw [if_pos hcd]
      have hsort2 : List.Sorted (· ≤ ·) (cur :: rest.map dateStrOf) := by
        have htail := hsort.of_cons
        rw [List.map_cons] at hsort
        have : dateStrOf e = cur := by rw [hdse, ← hcd]
        rw [List.map_cons, this] at htail
        exact htail
      obtain ⟨st, hgo, hcount, hlen, hsc, hsd⟩ :=
        ih (cnt0 + 1) cur (cum + (ei.seconds - si.seconds)) (c + 1) stats
          hqrest hsort2 hfresh
      refine ⟨st, ?_, ?_, ?_, ?_, ?_⟩
      · rw [exportEventsGo, hproc]
        exact hgo
      · rw [hcount]
        simp
        omega
      · rw [hlen, List.map_cons]
        have heq : dateStrOf e = cur := by rw [hdse, ← hcd]
        rw [heq]
        rw [List.dedup_cons_of_mem (List.mem_cons_self cur _)]
      · rw [hsc]
        simp
        omega
      · rw [hsd, List.map_cons, hde]
        simp [List.sum_cons]
        omega
    · -- new day: seal the open accumulator
      have hlt : cur < si.date := by
        rw [hdse] at hcurle
        exact lt_of_le_of_ne hcurle hcd
      have hproc : processEvent user_email ⟨cnt0, some cur, cum, c, stats⟩ e =
          Except.ok ⟨cnt0 + 1, some si.date, ei.seconds - si.seconds, 0 + 1,
            dictInsert stats cur (cum, c)⟩ := by
        unfold processEvent
        rw [if_pos hqe, hsi, hei]
        dsimp only
        rw [if_neg hcd]
      have hdict : dictInsert stats cur (cum, c) = stats ++ [(cur, cum, c)] :=
        dictInsert_fresh stats cur (cum, c) (fun p hp => ne_of_lt (hfresh p hp))
      have hsort2 : List.Sorted (· ≤ ·) (si.date :: rest.map dateStrOf) := by
        have htail := hsort.of_cons
        rw [List.map_cons, hdse] at htail
        exact htail
      have hfresh2 : ∀ p ∈ dictInsert stats cur (cum, c), p.1 < si.date := by
        rw [hdict]
        intro p hp
        rcases List.mem_append.mp hp with h | h
        · exact lt_trans (hfresh p h) hlt
        · have : p = (cur, cum, c) := by simpa using h
          rw [this]
          exact hlt
      obtain ⟨st, hgo, hcount, hlen, hsc, hsd⟩ :=
        ih (cnt0 + 1) si.date (ei.seconds - si.seconds) (0 + 1)
          (dictInsert stats cur (cum, c)) hqrest hsort2 hfresh2
      have hcurnot : cur ∉ (si.date :: rest.map dateStrOf) := by
        intro hmem
        have hall : ∀ b ∈ (si.date :: rest.map dateStrOf), si.date ≤ b := by
          intro b hb
          rcases List.mem_cons.mp hb with h | h
          · rw [h]
          · exact List.rel_of_sorted_cons hsort2 b h
        have := hall cur hmem
        exact absurd this (not_le.mpr hlt)
      refine ⟨st, ?_, ?_, ?_, ?_, ?_⟩
      · rw [exportEventsGo, hproc]
        exact hgo
      · rw [hcount]
        simp
        omega
      · rw [hlen, hdict, List.map_cons, hdse]
        rw [List.dedup_cons_of_not_mem hcurnot]
        simp
        omega
      · rw [hsc, hdict, sumCounts_append]
        simp [sumCounts]
        omega
      · rw [hsd, hdict, sumDurs_append, List.map_cons, hde]
        simp [sumDurs, List.sum_cons]
        omega

/-- Claim C1: the claimed behaviour — a chronologically sorted stream of
k qualifying events with parsed start and end times, spanning `d`
distinct start dates, aggregates without error into exactly `d` sealed
daily entries whose counts sum to k and whose durations sum to the total
duration, the still-open accumulator is sealed when the stream ends, and
the emitted Averages row reports count `k / d` (exact rational) and
duration `totalSeconds / d` truncated toward zero, exactly as
`int(total_time.total_seconds() / len(stats))` does — holds of the
maintained `export_events_to_csv` in `wallaby/cli/list_events.py` (the
first conjunct).  The legacy `list-calendar-events.py` `main`, which the
claim also cites, violates it: its loop never seals the still-open
accumulator (no `stats[current]` assignment follows the loop), so a
sorted single-event run with k = d = 1 yields zero sealed entries
instead of one, and its unguarded Averages row then divides by zero (the
closing conjuncts evaluate the legacy model at that failing input). -/
theorem C1_aggregation (user_email : String) (events : List Event)
    (hne : events ≠ [])
    (hq : ∀ e ∈ events, qualifies user_email e = true ∧
        e.start.dateTime.isSome = true ∧ e.stop.dateTime.isSome = true)
    (hsorted : List.Sorted (· ≤ ·) (events.map startSeconds))
    (hmono : ∀ e1 ∈ events, ∀ e2 ∈ events,
        startSeconds e1 ≤ startSeconds e2 → dateStrOf e1 ≤ dateStrOf e2) :
    (∃ S : List (String × Int × Nat),
      export_events user_email events = Except.ok (events.length, S) ∧
      S.length = ((events.map dateStrOf).dedup).length ∧
      sumCounts S = events.length ∧
      sumDurs S = (events.map durationOf).sum ∧
      export_stats S = some
        (Int.tdiv ((events.map durationOf).sum) ((((events.map dateStrOf).dedup).length : Nat) : Int),
         ((events.length : Nat) : ℚ) / ((((events.map dateStrOf).dedup).length : Nat) : ℚ))) ∧
    legacy_export_events "Me" (demoEvents.take 1) = Except.ok (1, []) ∧
    legacyMain "Me" (demoEvents.take 1) =
      Except.error "ZeroDivisionError: division by zero" := by
  refine ⟨?_, by rfl, by rfl⟩
  have hsortdates : List.Sorted (· ≤ ·) (events.map dateStrOf) := by
    rw [List.Sorted, List.pairwise_map]
    rw [List.Sorted, List.pairwise_map] at hsorted
    exact hsorted.imp_of_mem (fun ha hb hr => hmono _ ha _ hb hr)
  cases events with
  | nil => exact absurd rfl hne
  | cons e rest =>
    obtain ⟨hqe, hs, he⟩ := hq e (by simp)
    obtain ⟨si, hsi⟩ := Option.isSome_iff_exists.mp hs
    obtain ⟨ei, hei⟩ := Option.isSome_iff_exists.mp he
    have hdse : dateStrOf e = si.date := by
      unfold dateStrOf
      rw [hsi]
      rfl
    have hde : durationOf e = ei.seconds - si.seconds := by
      unfold durationOf
      rw [hsi, hei]
      rfl
    have hproc : processEvent user_email ⟨0, none, 0, 0, []⟩ e =
        Except.ok ⟨0 + 1, some si.date, ei.seconds - si.seconds, 0 + 1, []⟩ := by
      unfold processEvent
      rw [if_pos hqe, hsi, hei]
    have hqrest : ∀ e2 ∈ rest, qualifies user_email e2 = true ∧
        e2.start.dateTime.isSome = true ∧ e2.stop.dateTime.isSome = true :=
      fun e2 he2 => hq e2 (by simp [he2])
    have hsort2 : List.Sorted (· ≤ ·) (si.date :: rest.map dateStrOf) := by
      rw [List.map_cons, hdse] at hsortdates
      exact hsortdates
    obtain ⟨st, hgo, hcount, hlen, hsc, hsd⟩ :=
      exportGo_sorted_inv user_email rest (0 + 1) si.date
        (ei.seconds - si.seconds) (0 + 1) [] hqrest hsort2 (by simp)
    have hexp : export_events user_email (e :: rest) =
        Except.ok (st.count, finalizeStats st) := by
      unfold export_events
      rw [exportEventsGo, hproc]
      dsimp only
      rw [hgo]
    have hcount2 : st.count = (e :: rest).length := by
      rw [hcount, List.length_cons]
      omega
    have hlen2 : (finalizeStats st).length = (((e :: rest).map dateStrOf).dedup).length := by
      rw [hlen, List.map_cons, hdse]
      simp
    have hsc2 : sumCounts (finalizeStats st) = (e :: rest).length := by
      rw [hsc]
      simp [sumCounts]
      omega
    have hsd2 : sumDurs (finalizeStats st) = ((e :: rest).map durationOf).sum := by
      rw [hsd, List.map_cons, hde]
      simp [sumDurs, List.sum_cons]
    have hpos : 0 < (finalizeStats st).length := by
      rw [hlen2, List.map_cons]
      have hmem : dateStrOf e ∈ ((dateStrOf e :: rest.map dateStrOf)).dedup :=
        List.mem_dedup.mpr (by simp)
      exact List.length_pos.mpr (List.ne_nil_of_mem hmem)
    refine ⟨finalizeStats st, by rw [hexp, hcount2], hlen2, hsc2, hsd2, ?_⟩
    unfold export_stats
    rw [if_pos hpos]
    have hdursum : ((finalizeStats st).map (fun p => p.2.1)).sum =
        ((e :: rest).map durationOf).sum := hsd2
    have hcntsum : ((finalizeStats st).map (fun p => p.2.2)).sum = (e :: rest).length := hsc2
    rw [hdursum, hcntsum, hlen2]

/-- Witness for claim C1: the specification's end-to-end scenario (30 and
45 minutes on day one, 15 minutes on day two) satisfies every hypothesis
and aggregates to two sealed days whose averages row reports count 3/2
and duration 2700 seconds. -/
theorem C1_aggregation_witness :
    (demoEvents ≠ [] ∧
      (∀ e ∈ demoEvents, qualifies "Me" e = true ∧ e.start.dateTime.isSome = true ∧
        e.stop.dateTime.isSome = true) ∧
      List.Sorted (· ≤ ·) (demoEvents.map startSeconds) ∧
      (∀ e1 ∈ demoEvents, ∀ e2 ∈ demoEvents,
        startSeconds e1 ≤ startSeconds e2 → dateStrOf e1 ≤ dateStrOf e2)) ∧
    ((∃ S : List (String × Int × Nat),
      export_events "Me" demoEvents = Except.ok (demoEvents.length, S) ∧
      S.length = ((demoEvents.map dateStrOf).dedup).length ∧
      sumCounts S = demoEvents.length ∧
      sumDurs S = (demoEvents.map durationOf).sum ∧
      export_stats S = some
        (Int.tdiv ((demoEvents.map durationOf).sum)
          ((((demoEvents.map dateStrOf).dedup).length : Nat) : Int),
         ((demoEvents.length : Nat) : ℚ) /
           ((((demoEvents.map dateStrOf).dedup).length : Nat) : ℚ))) ∧
      legacy_export_events "Me" (demoEvents.take 1) = Except.ok (1, []) ∧
      legacyMain "Me" (demoEvents.take 1) =
        Except.error "ZeroDivisionError: division by zero") := by
  have hmstr : ("2024-01-01" : String) ≤ "2024-01-02" := by
    rw [String.le_iff_toList_le]
    decide
  have hmono : ∀ e1 ∈ demoEvents, ∀ e2 ∈ demoEvents,
      startSeconds e1 ≤ startSeconds e2 → dateStrOf e1 ≤ dateStrOf e2 := by
    intro e1 h1 e2 h2 hle
    fin_cases h1 <;> fin_cases h2 <;>
      first
        | exact le_refl _
        | exact hmstr
        | (exfalso; revert hle; decide)
  exact ⟨⟨by decide, by decide, by decide, hmono⟩,
    C1_aggregation "Me" demoEvents (by decide) (by decide) (by decide) hmono⟩

/-! ## Claim C6: events without a dateTime -/

/-- Claim C6, as stated, is false for the statistics pipeline: a
qualifying all-day event (bare date, no dateTime) is not skipped —
`parser.parse(event["start"].get("dateTime"))` receives `None` and raises
`TypeError`, terminating the run instead of excluding the event. -/
theorem C6_counterexample :
    qualifies "Me" allDayEvent = true ∧
    allDayEvent.start.dateTime = none ∧
    export_events "Me" [allDayEvent] = Except.error parseNoneMessage := by
  refine ⟨by decide, rfl, by rfl⟩

/-- Claim C6 (amended): the archive pipeline silently skips an event
missing a usable start (absent `start` key, or neither `dateTime` nor
`date`), leaving counters and the file system untouched; the statistics
pipeline does not skip — a qualifying event whose start or end lacks a
`dateTime` makes the per-event step raise the `TypeError` of
`parser.parse(None)`, which terminates the whole run. -/
theorem C6_data_shape_amended (user_email : String) (st : AggState) (e : Event)
    (ast : ArchState) (ae : ArchEvent) :
    (qualifies user_email e = true →
      (e.start.dateTime = none ∨ e.stop.dateTime = none) →
      processEvent user_email st e = Except.error parseNoneMessage) ∧
    (eventDate ae = none → saveEventStep user_email ast ae = ast) := by
  constructor
  · intro hq hnone
    unfold processEvent
    rw [if_pos hq]
    rcases hnone with h | h
    · rw [h]
    · cases hs1 : e.start.dateTime with
      | none => rfl
      | some si => rw [h]
  · intro h
    unfold saveEventStep
    rw [h]

/-- Witness for the amended claim C6: the all-day event raises in the
statistics pipeline, and an event with no start key is skipped by the
archive pipeline. -/
theorem C6_data_shape_amended_witness :
    (qualifies "Me" allDayEvent = true ∧ allDayEvent.start.dateTime = none) ∧
    processEvent "Me" ⟨0, none, 0, 0, []⟩ allDayEvent = Except.error parseNoneMessage ∧
    (eventDate ⟨some "No start", [], none⟩ = none ∧
      saveEventStep "Me" ⟨[], 0, 0, 0⟩ ⟨some "No start", [], none⟩ = ⟨[], 0, 0, 0⟩) :=
  ⟨⟨by decide, rfl⟩,
    (C6_data_shape_amended "Me" ⟨0, none, 0, 0, []⟩ allDayEvent ⟨[], 0, 0, 0⟩
      ⟨some "No start", [], none⟩).1 (by decide) (Or.inl rfl),
    rfl,
    (C6_data_shape_amended "Me" ⟨0, none, 0, 0, []⟩ allDayEvent ⟨[], 0, 0, 0⟩
      ⟨some "No start", [], none⟩).2 rfl⟩

/-! ## Claim C7: the zero-distinct-days guard -/

/-- Claim C7 is the intended behaviour and the maintained
`export_stats_to_csv` implements it: with an empty stats dictionary no
Averages row is emitted and no division happens.  The legacy
`list-calendar-events.py` (modelled by `legacyMain`, faithfully without
the end-of-stream seal its loop lacks) writes the Averages row
unconditionally, so a run whose fetched events contain no qualifying
event (here: a single event with no attendees, whose loop leaves `stats`
empty) divides by zero and dies with `ZeroDivisionError`. -/
theorem C7_zero_days_guard :
    export_stats [] = none ∧
    export_events "Me" [soloEvent] = Except.ok (0, []) ∧
    legacyMain "Me" [soloEvent] = Except.error "ZeroDivisionError: division by zero" := by
  refine ⟨rfl, by rfl, by rfl⟩

/-! ## Claim C8: sealed days under out-of-order input -/

/-- Claim C8, as stated, is false: an out-of-order input whose later
event shares an already sealed date does not leave "multiple disjoint
accumulators for that date in the fold's output".  The result mapping is
a dict: resealing the date overwrites the earlier entry.  For events on
dates A, B, A with durations 10, 20, 30, the output holds exactly one
entry for A, and it is the later accumulator (30, 1) — the first sealed
(10, 1) is gone. -/
theorem C8_counterexample :
    export_events "Me" outOfOrderEvents =
      Except.ok (3, [("2024-01-01", 30, 1), ("2024-01-02", 20, 1)]) ∧
    ([(("2024-01-01" : String), (30 : Int), (1 : Nat)), ("2024-01-02", 20, 1)].countP
        (fun p => p.1 == "2024-01-01")) = 1 ∧
    ¬ ((("2024-01-01" : String), (10 : Int), (1 : Nat)) ∈
        [(("2024-01-01" : String), (30 : Int), (1 : Nat)), ("2024-01-02", 20, 1)]) := by
  refine ⟨by rfl, by decide, by decide⟩

theorem statKeys_dictInsert (stats : List (String × Int × Nat)) (k : String) (v : Int × Nat) :
    statKeys (dictInsert stats k v) =
      if k ∈ statKeys stats then statKeys stats else statKeys stats ++ [k] := by
  unfold dictInsert statKeys
  by_cases h : k ∈ stats.map Prod.fst
  · rw [if_pos h, if_pos h, List.map_map]
    apply List.map_congr_left
    intro p _
    by_cases hp1 : p.1 = k
    · simp [hp1]
    · simp [hp1]
  · rw [if_neg h, if_neg h]
    simp

theorem statKeys_dictInsert_nodup (stats : List (String × Int × Nat)) (k : String)
    (v : Int × Nat) (h : (statKeys stats).Nodup) :
    (statKeys (dictInsert stats k v)).Nodup := by
  rw [statKeys_dictInsert]
  by_cases hm : k ∈ statKeys stats
  · rw [if_pos hm]
    exact h
  · rw [if_neg hm]
    simp [List.nodup_append, h, hm]

theorem processEvent_keys_nodup (user_email : String) (st : AggState) (e : Event)
    (st1 : AggState) (h : processEvent user_email st e = Except.ok st1)
    (hn : (statKeys st.stats).Nodup) : (statKeys st1.stats).Nodup := by
  unfold processEvent at h
  by_cases hq : qualifies user_email e
  · rw [if_pos hq] at h
    cases hs : e.start.dateTime with
    | none =>
      rw [hs] at h
      cases he : e.stop.dateTime <;> rw [he] at h <;> simp at h
    | some si =>
      rw [hs] at h
      cases he : e.stop.dateTime with
      | none =>
        rw [he] at h
        simp at h
      | some ei =>
        rw [he] at h
        dsimp only at h
        cases hc : st.current with
        | none =>
          rw [hc] at h
          dsimp only at h
          simp only [Except.ok.injEq] at h
          rw [← h]
          exact hn
        | some cur =>
          rw [hc] at h
          dsimp only at h
          by_cases hcd : cur = si.date
          · rw [if_pos hcd] at h
            simp only [Except.ok.injEq] at h
            rw [← h]
            exact hn
          · rw [if_neg hcd] at h
            simp only [Except.ok.injEq] at h
            rw [← h]
            exact statKeys_dictInsert_nodup st.stats cur (st.cumulative, st.cnt) hn
  · rw [if_neg hq] at h
    simp only [Except.ok.injEq] at h
    rw [← h]
    exact hn

theorem exportGo_keys_nodup (user_email : String) :
    ∀ (l : List Event) (st st1 : AggState),
      exportEventsGo user_email l st = Except.ok st1 →
      (statKeys st.stats).Nodup → (statKeys st1.stats).Nodup := by
  intro l
  induction l with
  | nil =>
    intro st st1 h hn
    simp only [exportEventsGo, Except.ok.injEq] at h
    rw [← h]
    exact hn
  | cons e rest ih =>
    intro st st1 h hn
    rw [exportEventsGo] at h
    cases hp : processEvent user_email st e with
    | error msg =>
      rw [hp] at h
      simp at h
    | ok st2 =>
      rw [hp] at h
      exact ih st2 st1 h (processEvent_keys_nodup user_email st e st2 hp hn)

theorem finalize_keys_nodup (st : AggState) (h : (statKeys st.stats).Nodup) :
    (statKeys (finalizeStats st)).Nodup := by
  unfold finalizeStats
  cases st.current with
  | none => exact h
  | some cur => exact statKeys_dictInsert_nodup st.stats cur (st.cumulative, st.cnt) h

/-- Claim C8 (amended): once a DailyStat has been sealed it is never
merged with a later accumulator — an out-of-order event sharing a sealed
date opens a fresh accumulator from scratch — but when that fresh
accumulator is itself sealed, Python dict assignment replaces the earlier
entry for that date, so the fold's output holds exactly one entry per
date (the last sealed accumulator wins), not multiple disjoint entries:
the result's keys are always free of duplicates, and the dates-A, B, A
run yields entries (A, 30, 1), (B, 20, 1), the earlier sealed (A, 10, 1)
having been overwritten without merging. -/
theorem C8_sealed_overwrite_amended :
    (∀ (user_email : String) (events : List Event) (k : Nat)
        (S : List (String × Int × Nat)),
      export_events user_email events = Except.ok (k, S) → (statKeys S).Nodup) ∧
    export_events "Me" outOfOrderEvents =
      Except.ok (3, [("2024-01-01", 30, 1), ("2024-01-02", 20, 1)]) := by
  constructor
  · intro user_email events k S h
    unfold export_events at h
    cases hg : exportEventsGo user_email events ⟨0, none, 0, 0, []⟩ with
    | error msg =>
      rw [hg] at h
      simp at h
    | ok st =>
      rw [hg] at h
      simp only [Except.ok.injEq, Prod.mk.injEq] at h
      rw [← h.2]
      exact finalize_keys_nodup st
        (exportGo_keys_nodup user_email events ⟨0, none, 0, 0, []⟩ st hg (by simp [statKeys]))
  · rfl

/-- Witness for the amended claim C8: the out-of-order run's output has
duplicate-free keys. -/
theorem C8_sealed_overwrite_amended_witness :
    export_events "Me" outOfOrderEvents =
      Except.ok (3, [("2024-01-01", 30, 1), ("2024-01-02", 20, 1)]) ∧
    (statKeys [(("2024-01-01" : String), (30 : Int), (1 : Nat)),
        ("2024-01-02", 20, 1)]).Nodup :=
  ⟨by rfl,
    C8_sealed_overwrite_amended.1 "Me" outOfOrderEvents 3
      [("2024-01-01", 30, 1), ("2024-01-02", 20, 1)] (by rfl)⟩

/-! ## Claim C10: per-outcome counters of the archive pipeline -/

theorem bump_sum (st : ArchState) (status : String)
    (h : status = "attended" ∨ status = "rejected" ∨ status = "unacknowledged") :
    (bump st status).attended + (bump st status).rejected +
      (bump st status).unacknowledged =
      st.attended + st.rejected + st.unacknowledged + 1 := by
  rcases h with h | h | h <;> subst h <;> simp [bump] <;> omega

theorem saveEventStep_counters (user_email : String) (st : ArchState) (e : ArchEvent) :
    (saveEventStep user_email st e).attended + (saveEventStep user_email st e).rejected +
        (saveEventStep user_email st e).unacknowledged =
      st.attended + st.rejected + st.unacknowledged +
        (if (eventDate e).isSome then 1 else 0) ∧
    (saveEventStep user_email st e).fs.length =
      st.fs.length + (if (eventDate e).isSome then 1 else 0) := by
  unfold saveEventStep
  cases hd : eventDate e with
  | none => simp
  | some d =>
    dsimp only
    constructor
    · simp only [Option.isSome_some, if_true]
      exact bump_sum st (get_attendance_status e user_email)
        (attendanceScan_mem user_email e.attendees)
    · simp only [Option.isSome_some, if_true, List.length_append, bump_fs]
      simp

theorem saveFold_counters (user_email : String) :
    ∀ (events : List ArchEvent) (st : ArchState),
      (events.foldl (saveEventStep user_email) st).attended +
          (events.foldl (saveEventStep user_email) st).rejected +
          (events.foldl (saveEventStep user_email) st).unacknowledged =
        st.attended + st.rejected + st.unacknowledged +
          events.countP (fun e => (eventDate e).isSome) ∧
      (events.foldl (saveEventStep user_email) st).fs.length =
        st.fs.length + events.countP (fun e => (eventDate e).isSome) := by
  intro events
  induction events with
  | nil =>
    intro st
    simp
  | cons e rest ih =>
    intro st
    rw [List.foldl_cons]
    obtain ⟨ih1, ih2⟩ := ih (saveEventStep user_email st e)
    obtain ⟨hs1, hs2⟩ := saveEventStep_counters user_email st e
    constructor
    · rw [ih1, hs1, List.countP_cons]
      by_cases h : (eventDate e).isSome
      · simp only [h, if_true]
        omega
      · simp only [h, if_false, Bool.false_eq_true]
        omega
    · rw [ih2, hs2, List.countP_cons]
      by_cases h : (eventDate e).isSome
      · simp only [h, if_true]
        omega
      · simp only [h, if_false, Bool.false_eq_true]
        omega

/-- Claim C10 (confirmed): in the archive pipeline every event with a
usable start (a `start` carrying a `dateTime` or a `date`) is classified
into exactly one of the three outcomes and counted exactly once, so after
any run the attended + rejected + unacknowledged counters sum to the
number of archived events — which also equals the number of files
written — and events without a usable start contribute to no counter and
no file. -/
theorem C10_outcome_counters (user_email : String) (fs0 : List String)
    (events : List ArchEvent) :
    (save_events_as_native user_email events fs0).attended +
        (save_events_as_native user_email events fs0).rejected +
        (save_events_as_native user_email events fs0).unacknowledged =
      events.countP (fun e => (eventDate e).isSome) ∧
    (save_events_as_native user_email events fs0).fs.length =
      fs0.length + events.countP (fun e => (eventDate e).isSome) := by
  unfold save_events_as_native
  obtain ⟨h1, h2⟩ := saveFold_counters user_email events ⟨fs0, 0, 0, 0⟩
  exact ⟨by rw [h1]; simp, by rw [h2]⟩

end Wallaby
